import Mathlib

/-!
Verification of the daily-plan scheduling engine of the
tretyakov-vs-rusmuseum quiz bot (src/main.py).

The persistent SQLite tables that the scheduling claims are about are
modelled by the `DB` structure below; SQL statements are translated
one-by-one into pure state transformers.  Tables that are only read in
insertion order by `ORDER BY` queries (`global_picture_state`,
`user_picture_state`) are modelled as association lists in row order;
the purely keyed tables are modelled as functions.  Timestamps are `Int`
seconds, day keys are `String`, user ids are `Nat`.

Library primitives that are not part of the repository are modelled by
deterministic stand-ins: `daily_seed` models the keyed hash
HMAC-SHA256(secret, day_key) of `_daily_seed`, and `pyShuffle` models
the seeded Fisher-Yates shuffle of `random.Random(seed).shuffle`.  The
exact pseudorandom streams are not reproduced; every claim below
depends only on the facts that both are deterministic functions of
their inputs and that a shuffle rearranges the given list.
-/

set_option maxRecDepth 4000

namespace TretyakovBot

/-- Environment-derived configuration constants of src/main.py (lines 33-55).
The `Int`-typed fields can be negative because they come from arbitrary
environment strings parsed by `int(...)`. -/
structure Config where
  REVIEW_EVERY : Int := 4
  REVIEW_TAIL_SLOTS : Int := 500
  REVIEW_PREFIX_SLOTS : Int := 0
  GLOBAL_READY_MIN_TOTAL_ATTEMPTS : Nat := 200
  GLOBAL_READY_MIN_PICTURES : Nat := 15
  GLOBAL_READY_MIN_ATTEMPTS_PER_PICTURE : Nat := 5
  GLOBAL_TOP_MISTAKES_LIMIT : Nat := 30
  USER_TOP_MISTAKES_LIMIT : Nat := 30
  USER_MIN_ATTEMPTS_PER_PICTURE : Nat := 2
  CYCLE_COOLDOWN_SECONDS : Int := 604800
  MAX_SCAN_SLOTS_PER_PLAY : Nat := 2000

/-- Kind tag of one slot of the shared daily plan. -/
inductive SlotKind where
  | NEW : SlotKind
  | REVIEW : SlotKind
deriving DecidableEq, Repr

/-- One entry of the items_json list stored in `global_daily_plan`:
a dict of the form `{"kind": ..., "picture_id": ...}`. -/
structure Slot where
  kind : SlotKind
  picture_id : Option String
deriving DecidableEq, Repr

/-- One row of the `global_picture_state` table (minus the key). -/
structure GRow where
  attempts : Nat
  wrong : Nat
  correct : Nat
  updated_at : Option Int
deriving DecidableEq, Repr

/-- One row of the `user_picture_state` table (minus the key). -/
structure PicRow where
  last_seen_cycle_id : Option Nat
  last_seen_at : Option Int
  last_wrong_at : Option Int
  attempts : Nat
  wrong : Nat
  correct : Nat
deriving DecidableEq, Repr

/-- One row of the `user_cycle_state` table (minus the key). -/
structure CycleRow where
  cycle_id : Nat
  started_at : Int
  completed_at : Option Int
  total_pictures_snapshot : Nat
  seen_count : Nat
deriving DecidableEq, Repr

/-- The PendingCandidate dict returned by `peek_next_candidate`
(its derived `painting` payload is just `PAINTINGS_BY_ID[picture_id]`
and is omitted). -/
structure Cand where
  day_key : String
  slot_index : Nat
  next_cursor : Nat
  cycle_id : Nat
  kind : SlotKind
  picture_id : String
deriving DecidableEq, Repr

/-- First value bound to a key in an association list, as a SELECT by
primary key over a table in row order. -/
def alistGet {κ β : Type} [DecidableEq κ] (l : List (κ × β)) (k : κ) : Option β :=
  (l.find? (fun e => decide (e.1 = k))).map (fun e => e.2)

/-- SQL INSERT of a fresh row at the end of a table. -/
def alistInsert {κ β : Type} (l : List (κ × β)) (k : κ) (v : β) : List (κ × β) :=
  l ++ [(k, v)]

/-- SQL UPDATE of every row with the given key. -/
def alistUpdate {κ β : Type} [DecidableEq κ] (l : List (κ × β)) (k : κ) (f : β → β) :
    List (κ × β) :=
  l.map (fun e => if e.1 = k then (e.1, f e.2) else e)

/-- The persistent state touched by the scheduling engine: the Option A
tables of `db_init` plus `daily_quota` and the pending-candidate columns
of `sessions` (modelled as the optional pending candidate per user).
The tables the claims never mention (users, stats, leaderboard,
stats_queue, painting_results, decks, meta) are left out. -/
@[ext]
structure DB where
  user_day_progress : Nat → String → Option Nat
  user_cycle_state : Nat → Option CycleRow
  user_picture_state : List ((Nat × String) × PicRow)
  daily_quota : Nat → String → Option Nat
  global_daily_plan : String → Option (List Slot)
  global_picture_state : List (String × GRow)
  pending : Nat → Option Cand

/-- The freshly initialised database. -/
def emptyDB : DB where
  user_day_progress := fun _ _ => none
  user_cycle_state := fun _ => none
  user_picture_state := []
  daily_quota := fun _ _ => none
  global_daily_plan := fun _ => none
  global_picture_state := []
  pending := fun _ => none

/-- Lookup in `user_picture_state` by primary key (user_id, picture_id). -/
def upsGet (st : DB) (user_id : Nat) (pid : String) : Option PicRow :=
  alistGet st.user_picture_state (user_id, pid)

/-- The `last_seen_cycle_id` read in `peek_next_candidate` and in
`_bump_cycle_seen_if_first_time_this_cycle`: NULL when the row is
absent or the column is NULL. -/
def lscOf (st : DB) (user_id : Nat) (pid : String) : Option Nat :=
  match upsGet st user_id pid with
  | none => none
  | some r => r.last_seen_cycle_id

/-- Truthiness of an optional string in Python (`if pid and ...`). -/
def pidTruthy : Option String → Bool
  | none => false
  | some s => decide (s ≠ "")

/-- get_used_today (src/main.py lines 95-98), with the day key explicit. -/
def get_used_today (st : DB) (user_id : Nat) (day : String) : Nat :=
  (st.daily_quota user_id day).getD 0

/-- inc_used_today_tx (src/main.py lines 101-109): INSERT the delta or
add it to the existing `used` on conflict. -/
def inc_used_today_tx (st : DB) (user_id : Nat) (day : String) (delta : Nat) : DB :=
  { st with daily_quota := fun u d =>
      if u = user_id ∧ d = day then some ((st.daily_quota user_id day).getD 0 + delta)
      else st.daily_quota u d }

/-- set_user_day_cursor (src/main.py lines 644-653): upsert of the cursor. -/
def set_user_day_cursor (st : DB) (user_id : Nat) (day_key : String) (cursor : Nat) : DB :=
  { st with user_day_progress := fun u d =>
      if u = user_id ∧ d = day_key then some cursor
      else st.user_day_progress u d }

/-- ensure_user_day_progress (src/main.py lines 631-641): INSERT OR IGNORE
a zero cursor, then read it back. -/
def ensure_user_day_progress (st : DB) (user_id : Nat) (day_key : String) : DB × Nat :=
  match st.user_day_progress user_id day_key with
  | some c => (st, c)
  | none => (set_user_day_cursor st user_id day_key 0, 0)

/-- Write the user_cycle_state row of one user. -/
def setCycle (st : DB) (user_id : Nat) (r : CycleRow) : DB :=
  { st with user_cycle_state := fun u =>
      if u = user_id then some r else st.user_cycle_state u }

/-- Deterministic stand-in for `_daily_seed` (src/main.py lines 529-531),
which is the first 8 bytes of HMAC-SHA256(GLOBAL_PLAN_SECRET, day_key)
as a big-endian integer.  Only determinism of the seed in
(secret, day_key) matters for the claims, so the keyed hash is modelled
by a 64-bit polynomial fold over the characters. -/
def daily_seed (secret day_key : String) : Nat :=
  (secret ++ ":" ++ day_key).data.foldl
    (fun a c => (a * 131 + c.toNat + 1) % 18446744073709551616) 7

/-- One step of the stand-in pseudorandom stream. -/
def lcgNext (s : Nat) : Nat :=
  (6364136223846793005 * s + 1442695040888963407) % 18446744073709551616

/-- Fuelled body of `pyShuffle`; returns the rearranged list and the
final pseudorandom-stream state. -/
def pyShuffleGo {α : Type} : Nat → Nat → List α → List α × Nat
  | 0, s, l => (l, s)
  | fuel + 1, s, l =>
      match l with
      | [] => ([], s)
      | _ :: _ =>
          let j := s % l.length
          match l.get? j with
          | none => (l, s)
          | some x =>
              let rec_result := pyShuffleGo fuel (lcgNext s) (l.eraseIdx j)
              (x :: rec_result.1, rec_result.2)

/-- Deterministic stand-in for `random.Random(seed).shuffle` used by
`ensure_global_daily_plan`: a seed-driven draw-without-replacement pass.
The exact Mersenne-Twister permutation is not reproduced; the claims
depend only on the shuffle being a deterministic function of the seed
and the input list. -/
def pyShuffle {α : Type} (seed : Nat) (l : List α) : List α × Nat :=
  pyShuffleGo l.length seed l

/-- is_global_ready (src/main.py lines 534-542). -/
def is_global_ready (cfg : Config) (g : List (String × GRow)) : Bool :=
  let total_attempts := (g.map (fun e => e.2.attempts)).sum
  if total_attempts < cfg.GLOBAL_READY_MIN_TOTAL_ATTEMPTS then false
  else decide (cfg.GLOBAL_READY_MIN_PICTURES ≤
    (g.filter (fun e =>
      decide (cfg.GLOBAL_READY_MIN_ATTEMPTS_PER_PICTURE ≤ e.2.attempts))).length)

/-- The SQL sort key `wrong * 1.0 / attempts` as an exact rational. -/
def wrongRatio (wrong attempts : Nat) : ℚ :=
  (wrong : ℚ) / (attempts : ℚ)

/-- The ORDER BY relation of both top-mistake queries, on
(wrong, attempts) pairs: ratio descending, then attempts descending.
`rankPairBefore a b` says row `a` may come before row `b`. -/
def rankPairBefore (a b : Nat × Nat) : Prop :=
  wrongRatio b.1 b.2 < wrongRatio a.1 a.2 ∨
    (wrongRatio a.1 a.2 = wrongRatio b.1 b.2 ∧ b.2 ≤ a.2)

instance : DecidableRel rankPairBefore := fun _ _ => by
  unfold rankPairBefore; infer_instance

/-- ORDER BY relation on global_picture_state rows. -/
def gRank (a b : String × GRow) : Prop :=
  rankPairBefore (a.2.wrong, a.2.attempts) (b.2.wrong, b.2.attempts)

instance : DecidableRel gRank := fun _ _ => by
  unfold gRank; infer_instance

/-- ORDER BY relation on user_picture_state rows. -/
def uRank (a b : (Nat × String) × PicRow) : Prop :=
  rankPairBefore (a.2.wrong, a.2.attempts) (b.2.wrong, b.2.attempts)

instance : DecidableRel uRank := fun _ _ => by
  unfold uRank; infer_instance

/-- get_global_top_mistakes (src/main.py lines 545-556): the SQL
SELECT ... WHERE attempts >= threshold AND wrong > 0
ORDER BY (wrong*1.0/attempts) DESC, attempts DESC LIMIT limit,
followed by the Python filter keeping only catalog ids. -/
def get_global_top_mistakes (cfg : Config) (catalog : List String)
    (g : List (String × GRow)) : List String :=
  let q := g.filter (fun e =>
    decide (cfg.GLOBAL_READY_MIN_ATTEMPTS_PER_PICTURE ≤ e.2.attempts) &&
    decide (0 < e.2.wrong))
  (((List.insertionSort gRank q).take cfg.GLOBAL_TOP_MISTAKES_LIMIT).map
      (fun e => e.1)).filter (fun pid => decide (pid ∈ catalog))

/-- get_user_top_mistakes (src/main.py lines 559-572): same shape as the
global query, restricted to one user. -/
def get_user_top_mistakes (cfg : Config) (catalog : List String) (st : DB)
    (user_id : Nat) : List String :=
  let q := st.user_picture_state.filter (fun e =>
    decide (e.1.1 = user_id) &&
    decide (cfg.USER_MIN_ATTEMPTS_PER_PICTURE ≤ e.2.attempts) &&
    decide (0 < e.2.wrong))
  (((List.insertionSort uRank q).take cfg.USER_TOP_MISTAKES_LIMIT).map
      (fun e => e.1.2)).filter (fun pid => decide (pid ∈ catalog))

/-- The round-robin binding of one REVIEW slot used in all three plan
sections of `ensure_global_daily_plan`:
`review_ids[idx % len(review_ids)] if (global_ready and review_ids) else None`. -/
def reviewBind (global_ready : Bool) (review_ids : List String) (idx : Nat) : Option String :=
  if global_ready = true ∧ review_ids ≠ [] then
    some (review_ids.getD (idx % review_ids.length) "")
  else none

/-- The REVIEW_PREFIX_SLOTS leading REVIEW slots of the plan
(src/main.py lines 594-596). -/
def planFrontSlots (cfg : Config) (global_ready : Bool) (review_ids : List String) :
    List Slot :=
  (List.range (max 0 cfg.REVIEW_PREFIX_SLOTS).toNat).map
    (fun i => ⟨SlotKind.REVIEW, reviewBind global_ready review_ids i⟩)

/-- The interleave loop of `ensure_global_daily_plan`
(src/main.py lines 598-609), carrying `new_since_review` and
`review_cursor`; returns the produced slots and the final review cursor. -/
def interleaveNewGo (cfg : Config) (global_ready : Bool) (review_ids : List String) :
    List String → Nat → Nat → List Slot × Nat
  | [], _, review_cursor => ([], review_cursor)
  | pid :: rest, new_since_review, review_cursor =>
      let nsr1 := new_since_review + 1
      if 0 < cfg.REVIEW_EVERY ∧ max 1 (cfg.REVIEW_EVERY - 1) ≤ (nsr1 : Int) then
        let review_pid := reviewBind global_ready review_ids review_cursor
        let rc1 := if global_ready = true ∧ review_ids ≠ [] then review_cursor + 1
          else review_cursor
        let rest_result := interleaveNewGo cfg global_ready review_ids rest 0 rc1
        (⟨SlotKind.NEW, some pid⟩ :: ⟨SlotKind.REVIEW, review_pid⟩ :: rest_result.1,
          rest_result.2)
      else
        let rest_result := interleaveNewGo cfg global_ready review_ids rest nsr1 review_cursor
        (⟨SlotKind.NEW, some pid⟩ :: rest_result.1, rest_result.2)

/-- The REVIEW_TAIL_SLOTS trailing REVIEW slots (src/main.py lines 611-615),
bound round-robin starting at the final review cursor of the interleave. -/
def planTailSlots (cfg : Config) (global_ready : Bool) (review_ids : List String)
    (review_cursor : Nat) : List Slot :=
  (List.range (max 0 cfg.REVIEW_TAIL_SLOTS).toNat).map
    (fun i => ⟨SlotKind.REVIEW, reviewBind global_ready review_ids (review_cursor + i)⟩)

/-- The full slot sequence assembled by `ensure_global_daily_plan` for a
given readiness flag, ranked review list and shuffled NEW order. -/
def buildPlanItems (cfg : Config) (global_ready : Bool)
    (review_ids new_order : List String) : List Slot :=
  let mid := interleaveNewGo cfg global_ready review_ids new_order 0 0
  planFrontSlots cfg global_ready review_ids ++ mid.1 ++
    planTailSlots cfg global_ready review_ids mid.2

/-- ensure_global_daily_plan (src/main.py lines 575-628): return the
stored plan of the day if present; otherwise generate one from the daily
seed, the catalog and the global aggregate snapshot, store it with
insert-if-absent semantics, and return it. -/
def ensure_global_daily_plan (cfg : Config) (secret : String) (catalog : List String)
    (st : DB) (day_key : String) : DB × List Slot :=
  match st.global_daily_plan day_key with
  | some items => (st, items)
  | none =>
      let seed := daily_seed secret day_key
      let sh := pyShuffle seed catalog
      let new_order := sh.1
      let global_ready := is_global_ready cfg st.global_picture_state
      let review_ids :=
        if global_ready then
          (pyShuffle sh.2 (get_global_top_mistakes cfg catalog st.global_picture_state)).1
        else []
      let items := buildPlanItems cfg global_ready review_ids new_order
      ({ st with global_daily_plan := fun d =>
          if d = day_key then some items else st.global_daily_plan d }, items)

/-- get_or_advance_cycle (src/main.py lines 655-707).  Returns the new
state and the tuple (cycle_id, total_snapshot, seen_count, completed_at). -/
def get_or_advance_cycle (cfg : Config) (catalog : List String) (st : DB)
    (user_id : Nat) (now_ts : Int) : DB × (Nat × Nat × Nat × Option Int) :=
  let current_total := catalog.length
  match st.user_cycle_state user_id with
  | none =>
      (setCycle st user_id ⟨1, now_ts, none, current_total, 0⟩,
        (1, current_total, 0, none))
  | some r0 =>
      let r1 := if r0.total_pictures_snapshot < current_total then
          { r0 with total_pictures_snapshot := current_total, completed_at := none }
        else r0
      let st1 := if r0.total_pictures_snapshot < current_total then
          setCycle st user_id r1
        else st
      match r1.completed_at with
      | some t =>
          if cfg.CYCLE_COOLDOWN_SECONDS ≤ now_ts - t then
            let r2 : CycleRow := ⟨r1.cycle_id + 1, now_ts, none, current_total, 0⟩
            (setCycle st1 user_id r2, (r2.cycle_id, current_total, 0, none))
          else
            (st1, (r1.cycle_id, r1.total_pictures_snapshot, r1.seen_count, some t))
      | none =>
          (st1, (r1.cycle_id, r1.total_pictures_snapshot, r1.seen_count, none))

/-- bump_cycle_seen_if_first_time_this_cycle (src/main.py lines 710-749).
When the cycle row is absent the Python code would crash on the re-read
after its UPDATE; that situation never arises in the program because the
bump always follows `_get_or_advance_cycle` in the same request, and it
is modelled as leaving the cycle table untouched. -/
def bump_cycle_seen_if_first_time_this_cycle (st : DB) (user_id : Nat) (pid : String)
    (cycle_id : Nat) (now_ts : Int) : DB :=
  let row := upsGet st user_id pid
  let last_seen_cycle_id : Option Nat :=
    match row with
    | none => none
    | some r => r.last_seen_cycle_id
  let first_time := decide (last_seen_cycle_id ≠ some cycle_id)
  let st1 :=
    match row with
    | none =>
        let ups := alistInsert st.user_picture_state (user_id, pid)
          ⟨some cycle_id, some now_ts, none, 0, 0, 0⟩
        { st with user_picture_state := ups }
    | some _ =>
        let ups := alistUpdate st.user_picture_state (user_id, pid)
          (fun r => { r with last_seen_cycle_id := some cycle_id,
                             last_seen_at := some now_ts })
        { st with user_picture_state := ups }
  if first_time then
    match st1.user_cycle_state user_id with
    | none => st1
    | some c =>
        let c1 := { c with seen_count := c.seen_count + 1 }
        if c1.completed_at = none ∧ c1.total_pictures_snapshot ≤ c1.seen_count then
          setCycle st1 user_id { c1 with completed_at := some now_ts }
        else
          setCycle st1 user_id c1
  else st1

/-- pick_user_review_fallback (src/main.py lines 752-758). -/
def pick_user_review_fallback (cfg : Config) (secret : String) (catalog : List String)
    (st : DB) (user_id : Nat) (day_key : String) (cursor : Nat) : Option String :=
  let lst := get_user_top_mistakes cfg catalog st user_id
  if lst = [] then none
  else
    let seed := daily_seed secret (day_key ++ ":" ++ toString user_id)
    some (lst.getD ((seed + cursor) % lst.length) "")

/-- review_is_eligible (src/main.py lines 761-767): the user must have at
least one recorded attempt on the picture. -/
def review_is_eligible (st : DB) (user_id : Nat) (pid : String) : Bool :=
  match upsGet st user_id pid with
  | none => false
  | some r => decide (0 < r.attempts)

/-- Acceptance test of a NEW slot in the scan of `peek_next_candidate`
(src/main.py lines 786-802): a truthy catalog id not yet seen in the
current cycle. -/
def new_slot_accept (catalog : List String) (st : DB) (user_id : Nat)
    (cycle_id : Nat) (pid : String) : Bool :=
  decide (pid ≠ "") && decide (pid ∈ catalog) &&
    decide (lscOf st user_id pid ≠ some cycle_id)

/-- Resolution of the concrete picture of a REVIEW slot
(`chosen_pid = pid or fallback`, src/main.py line 805). -/
def review_slot_choice (cfg : Config) (secret : String) (catalog : List String)
    (st : DB) (user_id : Nat) (day_key : String) (i : Nat) (slot_pid : Option String) :
    Option String :=
  if pidTruthy slot_pid then slot_pid
  else pick_user_review_fallback cfg secret catalog st user_id day_key i

/-- Acceptance test of a resolved REVIEW candidate
(src/main.py line 806): truthy, in the catalog, and eligible. -/
def review_slot_accept (catalog : List String) (st : DB) (user_id : Nat)
    (chosen : Option String) : Bool :=
  pidTruthy chosen &&
    decide (chosen.getD "" ∈ catalog) &&
    review_is_eligible st user_id (chosen.getD "")

/-- The scan loop of `peek_next_candidate` (src/main.py lines 779-818):
walk the plan from index `i` for at most `fuel` slots; return the first
accepted candidate together with the index reached. -/
def peekScanGo (cfg : Config) (secret : String) (catalog : List String) (st : DB)
    (user_id : Nat) (day_key : String) (items : List Slot) (cycle_id : Nat) :
    Nat → Nat → Option Cand × Nat
  | 0, i => (none, i)
  | fuel + 1, i =>
      match items.get? i with
      | none => (none, i)
      | some slot =>
          match slot.kind with
          | SlotKind.NEW =>
              match slot.picture_id with
              | some pid =>
                  if new_slot_accept catalog st user_id cycle_id pid then
                    (some ⟨day_key, i, i + 1, cycle_id, SlotKind.NEW, pid⟩, i)
                  else
                    peekScanGo cfg secret catalog st user_id day_key items cycle_id fuel (i + 1)
              | none =>
                  peekScanGo cfg secret catalog st user_id day_key items cycle_id fuel (i + 1)
          | SlotKind.REVIEW =>
              let chosen := review_slot_choice cfg secret catalog st user_id day_key i
                slot.picture_id
              if review_slot_accept catalog st user_id chosen then
                (some ⟨day_key, i, i + 1, cycle_id, SlotKind.REVIEW, chosen.getD ""⟩, i)
              else
                peekScanGo cfg secret catalog st user_id day_key items cycle_id fuel (i + 1)

/-- peek_next_candidate (src/main.py lines 770-823): ensure today's plan,
the progress row and the cycle row, scan forward from the cursor, and on
a fruitless scan persist the cursor at the scan boundary. -/
def peek_next_candidate (cfg : Config) (secret : String) (catalog : List String)
    (st : DB) (user_id : Nat) (day_key : String) (now_ts : Int) : DB × Option Cand :=
  let ep := ensure_global_daily_plan cfg secret catalog st day_key
  let items := ep.2
  let up := ensure_user_day_progress ep.1 user_id day_key
  let cursor := up.2
  let ga := get_or_advance_cycle cfg catalog up.1 user_id now_ts
  let st3 := ga.1
  let cycle_id := ga.2.1
  let res := peekScanGo cfg secret catalog st3 user_id day_key items cycle_id
    cfg.MAX_SCAN_SLOTS_PER_PLAY cursor
  match res.1 with
  | some cand => (st3, some cand)
  | none => (set_user_day_cursor st3 user_id day_key res.2, none)

/-- commit_candidate (src/main.py lines 826-843): advance the cursor to
the candidate's next_cursor, mark the picture seen for the candidate's
cycle, add one to today's quota, and clear the pending columns.
`today` is the `_today_key()` read inside `inc_used_today_tx`. -/
def commit_candidate (st : DB) (user_id : Nat) (cand : Cand) (today : String)
    (now_ts : Int) : DB :=
  let st1 := set_user_day_cursor st user_id cand.day_key cand.next_cursor
  let st2 := bump_cycle_seen_if_first_time_this_cycle st1 user_id cand.picture_id
    cand.cycle_id now_ts
  let st3 := inc_used_today_tx st2 user_id today 1
  { st3 with pending := fun u => if u = user_id then none else st3.pending u }

/-- skip_candidate_slot (src/main.py lines 846-849): only advance the
cursor past the failed slot. -/
def skip_candidate_slot (st : DB) (user_id : Nat) (cand : Cand) : DB :=
  set_user_day_cursor st user_id cand.day_key cand.next_cursor

/-- update_picture_answer_aggregates (src/main.py lines 894-956):
insert-or-increment of the global and per-user counters. -/
def update_picture_answer_aggregates (st : DB) (user_id : Nat) (pid : String)
    (is_correct : Bool) (now_ts : Int) : DB :=
  let st1 :=
    match alistGet st.global_picture_state pid with
    | none =>
        let gps := alistInsert st.global_picture_state pid
          ⟨1, if is_correct then 0 else 1, if is_correct then 1 else 0, some now_ts⟩
        { st with global_picture_state := gps }
    | some _ =>
        let gps := alistUpdate st.global_picture_state pid
          (fun r => ⟨r.attempts + 1,
            r.wrong + (if is_correct then 0 else 1),
            r.correct + (if is_correct then 1 else 0),
            some now_ts⟩)
        { st with global_picture_state := gps }
  match alistGet st1.user_picture_state (user_id, pid) with
  | none =>
      let ups := alistInsert st1.user_picture_state (user_id, pid)
        ⟨none, none, if is_correct then none else some now_ts,
          1, if is_correct then 0 else 1, if is_correct then 1 else 0⟩
      { st1 with user_picture_state := ups }
  | some _ =>
      let ups := alistUpdate st1.user_picture_state (user_id, pid)
        (fun r => { r with
          attempts := r.attempts + 1,
          wrong := r.wrong + (if is_correct then 0 else 1),
          correct := r.correct + (if is_correct then 1 else 0),
          last_wrong_at := if is_correct then r.last_wrong_at else some now_ts })
      { st1 with user_picture_state := ups }

/-- One raw record of paintings.json as read by `load_paintings`; a
field absent from the JSON dict is the empty string (`item.get(...) or ""`). -/
structure RawItem where
  id : String
  title : String
  artist : String
  year : String
  museum : String
  image_url : String
  note : String
deriving DecidableEq, Repr

/-- One cleaned catalog record produced by `load_paintings`. -/
structure Painting where
  id : String
  title : String
  artist : String
  year : String
  museum : String
  image_url : String
  note : String
deriving DecidableEq, Repr

/-- VALID_MUSEUMS (src/main.py line 31). -/
def VALID_MUSEUMS : List String := ["Русский музей", "Третьяковская галерея"]

/-- Python `str.strip()`: drop leading and trailing whitespace. -/
def pyStrip (s : String) : String :=
  ⟨((s.data.dropWhile Char.isWhitespace).reverse.dropWhile Char.isWhitespace).reverse⟩

/-- _canon (src/main.py lines 295-296): lower-case and collapse
whitespace runs. -/
def canon (s : String) : String :=
  " ".intercalate ((s.toLower.split (fun c => c.isWhitespace)).filter
    (fun w => decide (w ≠ "")))

/-- The record-by-record loop of `load_paintings` (src/main.py lines
306-330), with the set of already-accepted ids accumulated; `Except` is
the `RuntimeError` raised on a missing or duplicate id. -/
def load_paintings_go : List RawItem → List String → Except String (List Painting)
  | [], _ => Except.ok []
  | item :: rest, seen_ids =>
      let museum := pyStrip item.museum
      let image_url := pyStrip item.image_url
      if museum ∉ VALID_MUSEUMS ∨ image_url = "" then
        load_paintings_go rest seen_ids
      else
        let pid := pyStrip item.id
        if pid = "" then
          Except.error "paintings.json must contain stable id for each record now"
        else if pid ∈ seen_ids then
          Except.error "Duplicate picture id in paintings.json"
        else
          match load_paintings_go rest (pid :: seen_ids) with
          | Except.error e => Except.error e
          | Except.ok l =>
              Except.ok (⟨pid, pyStrip item.title, pyStrip item.artist, pyStrip item.year,
                museum, image_url, pyStrip item.note⟩ :: l)

/-- load_paintings (src/main.py lines 299-336): the cleaned list, or an
error for a missing id, a duplicate id, or an empty cleaned list. -/
def load_paintings (data : List RawItem) : Except String (List Painting) :=
  match load_paintings_go data [] with
  | Except.error e => Except.error e
  | Except.ok cleaned =>
      if cleaned = [] then Except.error "no valid records" else Except.ok cleaned

/-- ALL_PICTURE_IDS derived from a loaded catalog. -/
def paintingIds (ps : List Painting) : List String := ps.map (fun p => p.id)

/-- _key4_from_fields (src/main.py lines 339-340). -/
def key4_from_fields (title artist year museum : String) :
    String × String × String × String :=
  (canon title, canon artist, canon year, canon museum)

/-- _key5_from_fields (src/main.py lines 343-344). -/
def key5_from_fields (title artist year museum image_url : String) :
    String × String × String × String × String :=
  (canon title, canon artist, canon year, canon museum, canon image_url)

/-- key4 of a catalog record. -/
def painting_key4 (p : Painting) : String × String × String × String :=
  key4_from_fields p.title p.artist p.year p.museum

/-- key5 of a catalog record. -/
def painting_key5 (p : Painting) : String × String × String × String × String :=
  key5_from_fields p.title p.artist p.year p.museum p.image_url

/-- CATALOG_BY_KEY5 built by `build_catalog_indexes` (src/main.py lines
347-355): dict assignment in catalog order, so the last matching record
wins. -/
def catalog_by_key5 (ps : List Painting) (k : String × String × String × String × String) :
    Option String :=
  ((ps.reverse).find? (fun p => decide (painting_key5 p = k))).map (fun p => p.id)

/-- CATALOG_BY_KEY4 built by `build_catalog_indexes`: list of ids per
fuzzy key, in catalog order. -/
def catalog_by_key4 (ps : List Painting) (k : String × String × String × String) :
    List String :=
  (ps.filter (fun p => decide (painting_key4 p = k))).map (fun p => p.id)

/-- resolve_picture_id (src/main.py lines 358-378). -/
def resolve_picture_id (ps : List Painting) (picture_id : Option String)
    (title artist year museum image_url : String) : Option String :=
  if pidTruthy picture_id = true ∧ picture_id.getD "" ∈ paintingIds ps then picture_id
  else
    match catalog_by_key5 ps (key5_from_fields title artist year museum image_url) with
    | some pid => some pid
    | none =>
        let ids := catalog_by_key4 ps (key4_from_fields title artist year museum)
        if ids.length = 1 then some (ids.getD 0 "") else none

/-- One row of the append-only `painting_results` answer log as consumed
by `backfill_picture_states_if_needed` (its autoincrement id is irrelevant
to the rebuilt aggregates and omitted). -/
structure LogEntry where
  user_id : Nat
  title : String
  artist : String
  year : String
  museum : String
  image_url : String
  is_correct : Bool
  ts : Int
  picture_id : Option String
deriving DecidableEq, Repr

/-- The resolved answer log: (user_id, picture_id, is_correct, ts) of the
rows whose picture could be resolved; unresolvable rows are skipped. -/
def backfillResolved (ps : List Painting) (log : List LogEntry) :
    List (Nat × String × Bool × Int) :=
  log.filterMap (fun e =>
    (resolve_picture_id ps e.picture_id e.title e.artist e.year e.museum e.image_url).map
      (fun pid => (e.user_id, pid, e.is_correct, e.ts)))

/-- The users occurring in the resolved log (keys of user_seen_set). -/
def bfUsers (rs : List (Nat × String × Bool × Int)) : List Nat :=
  (rs.map (fun r => r.1)).dedup

/-- The distinct pictures a user answered in the resolved log
(user_seen_set[u]). -/
def bfPids (rs : List (Nat × String × Bool × Int)) (u : Nat) : List String :=
  ((rs.filter (fun r => decide (r.1 = u))).map (fun r => r.2.1)).dedup

/-- The resolved log rows of one (user, picture) pair. -/
def bfEntries (rs : List (Nat × String × Bool × Int)) (u : Nat) (pid : String) :
    List (Nat × String × Bool × Int) :=
  rs.filter (fun r => decide (r.1 = u) && decide (r.2.1 = pid))

/-- The user_picture_state row written by the backfill for one
(user, picture) pair: aggregated counters, `last_seen_cycle_id = 1`, and
the running maxima (seeded with 0 by `dict.get(key, 0)`) for the seen and
wrong timestamps. -/
def bfPicRow (rs : List (Nat × String × Bool × Int)) (u : Nat) (pid : String) : PicRow :=
  let es := bfEntries rs u pid
  let wrongs := es.filter (fun r => decide (r.2.2.1 = false))
  { last_seen_cycle_id := some 1
    last_seen_at := some (es.foldl (fun a r => max a r.2.2.2) 0)
    last_wrong_at :=
      if wrongs = [] then none else some (wrongs.foldl (fun a r => max a r.2.2.2) 0)
    attempts := es.length
    wrong := wrongs.length
    correct := (es.filter (fun r => decide (r.2.2.1 = true))).length }

/-- The global_picture_state row rebuilt by the backfill for one picture. -/
def bfGRow (rs : List (Nat × String × Bool × Int)) (pid : String) (now_ts : Int) : GRow :=
  let es := rs.filter (fun r => decide (r.2.1 = pid))
  { attempts := es.length
    wrong := (es.filter (fun r => decide (r.2.2.1 = false))).length
    correct := (es.filter (fun r => decide (r.2.2.1 = true))).length
    updated_at := some now_ts }

/-- backfill_picture_states_if_needed (src/main.py lines 961-1081) run on
the empty aggregate tables of a fresh v2 schema (the only state it is
ever applied to, since the `meta` flag makes it run at most once, before
any request is served): the aggregates, per-user picture rows (marked
seen in cycle 1) and cycle rows rebuilt from the answer log. -/
def backfill_picture_states (ps : List Painting) (log : List LogEntry) (now_ts : Int) :
    DB :=
  if log = [] then emptyDB
  else
    let rs := backfillResolved ps log
    let users := bfUsers rs
    let ups := users.flatMap (fun u =>
      (bfPids rs u).map (fun pid => ((u, pid), bfPicRow rs u pid)))
    let gps := ((rs.map (fun r => r.2.1)).dedup).map (fun pid => (pid, bfGRow rs pid now_ts))
    { emptyDB with
      user_picture_state := ups
      global_picture_state := gps
      user_cycle_state := fun u =>
        if u ∈ users then
          some ⟨1, now_ts,
            if (paintingIds ps).length ≤ (bfPids rs u).length then some now_ts else none,
            (paintingIds ps).length, (bfPids rs u).length⟩
        else none }

/-- The database states reachable by the scheduling engine over a given
catalog of picture ids: from a fresh database or a backfilled one, by
cycle reads (`_get_or_advance_cycle`), deliveries (the commit path:
`_get_or_advance_cycle` during the peek followed by the seen-marking
with the cycle id that peek returned, for a catalog picture), answer
recording, operations that leave the cycle and picture tables untouched
(cursor writes, quota, plan creation, pending bookkeeping), and catalog
growth across restarts (the catalog only ever gains items). -/
inductive Reachable (cfg : Config) : List String → DB → Prop where
  | init (catalog : List String) (hne : catalog ≠ []) (hnd : catalog.Nodup) :
      Reachable cfg catalog emptyDB
  | backfill_init (ps : List Painting) (log : List LogEntry) (now_ts : Int)
      (hne : ps ≠ []) (hnd : (paintingIds ps).Nodup) :
      Reachable cfg (paintingIds ps) (backfill_picture_states ps log now_ts)
  | advance (catalog : List String) (st : DB) (u : Nat) (now_ts : Int)
      (h : Reachable cfg catalog st) :
      Reachable cfg catalog (get_or_advance_cycle cfg catalog st u now_ts).1
  | serve (catalog : List String) (st : DB) (u : Nat) (pid : String) (now1 now2 : Int)
      (h : Reachable cfg catalog st) (hpid : pid ∈ catalog) :
      Reachable cfg catalog
        (bump_cycle_seen_if_first_time_this_cycle
          (get_or_advance_cycle cfg catalog st u now1).1 u pid
          (get_or_advance_cycle cfg catalog st u now1).2.1 now2)
  | answer (catalog : List String) (st : DB) (u : Nat) (pid : String) (b : Bool)
      (now_ts : Int) (h : Reachable cfg catalog st) :
      Reachable cfg catalog (update_picture_answer_aggregates st u pid b now_ts)
  | frame (catalog : List String) (st st2 : DB)
      (h : Reachable cfg catalog st)
      (hcyc : st2.user_cycle_state = st.user_cycle_state)
      (hups : st2.user_picture_state = st.user_picture_state) :
      Reachable cfg catalog st2
  | grow (catalog catalog2 : List String) (st : DB)
      (h : Reachable cfg catalog st)
      (hsub : catalog ⊆ catalog2) (hnd : catalog2.Nodup) :
      Reachable cfg catalog2 st

/-- The pictures of the catalog marked as seen by a user in a given
cycle (`last_seen_cycle_id` equal to that cycle id). -/
def seenThisCycle (catalog : List String) (st : DB) (u : Nat) (cyc : Nat) : List String :=
  catalog.filter (fun pid => decide (lscOf st u pid = some cyc))

/-- The cycle-tracker invariant (strengthened to an inductive form): a
user without a cycle row has no seen-marks at all; a user with a cycle
row has `seen_count` equal to the number of catalog pictures marked seen
in the current cycle, a positive snapshot bounded by the live catalog
size, `seen_count ≤ total_pictures_snapshot`, `completed_at` set exactly
when the two are equal, and every seen-mark bounded by the current cycle
id with current-cycle marks only on catalog pictures. -/
def CycleInv (catalog : List String) (st : DB) : Prop :=
  (∀ u, st.user_cycle_state u = none → ∀ pid, lscOf st u pid = none) ∧
  (∀ u c, st.user_cycle_state u = some c →
    c.seen_count = (seenThisCycle catalog st u c.cycle_id).length ∧
    1 ≤ c.total_pictures_snapshot ∧
    c.total_pictures_snapshot ≤ catalog.length ∧
    c.seen_count ≤ c.total_pictures_snapshot ∧
    (c.completed_at ≠ none ↔ c.seen_count = c.total_pictures_snapshot) ∧
    (∀ pid k, lscOf st u pid = some k →
      k ≤ c.cycle_id ∧ (k = c.cycle_id → pid ∈ catalog)))

/-- The closed form of the interleave section when the effective review
period `max 1 (REVIEW_EVERY - 1)` is one NEW slot: each NEW slot is
immediately followed by one REVIEW slot, bound round-robin from the
given review cursor. -/
def pairedMiddle (global_ready : Bool) (review_ids : List String) :
    List String → Nat → List Slot
  | [], _ => []
  | pid :: rest, review_cursor =>
      let rc1 := if global_ready = true ∧ review_ids ≠ [] then review_cursor + 1
        else review_cursor
      ⟨SlotKind.NEW, some pid⟩ :: ⟨SlotKind.REVIEW, reviewBind global_ready review_ids review_cursor⟩ ::
        pairedMiddle global_ready review_ids rest rc1

/-- The persisted cursor of a user for a day, with the 0 default applied
on read (`int(row[0] or 0)` after the INSERT OR IGNORE of a 0 cursor). -/
def cursorVal (st : DB) (u : Nat) (day_key : String) : Nat :=
  (st.user_day_progress u day_key).getD 0

/-- The record filter at the top of the `load_paintings` loop: valid
museum and non-empty image url.  Records failing it are skipped. -/
def loadKeptB (it : RawItem) : Bool :=
  decide (pyStrip it.museum ∈ VALID_MUSEUMS) && decide (pyStrip it.image_url ≠ "")

/-! Concrete instances used by the witness and counterexample theorems. -/

/-- Default configuration (the env defaults of src/main.py). -/
def cfg0 : Config := {}

/-- Small configuration for the peek witnesses: default thresholds, a
two-slot review tail and a bounded scan. -/
def cfgW : Config := { REVIEW_TAIL_SLOTS := 2, MAX_SCAN_SLOTS_PER_PLAY := 10 }

/-- Configuration with no review slots at all (REVIEW_EVERY = 0, no
prefix, no tail), used for the dead-scan counterexample. -/
def cfgScan : Config :=
  { REVIEW_EVERY := 0, REVIEW_TAIL_SLOTS := 0, MAX_SCAN_SLOTS_PER_PLAY := 10 }

/-- Configuration whose interleave places a REVIEW slot after every NEW
slot and which lets a single prior attempt feed the per-user review
list. -/
def cfgR : Config :=
  { REVIEW_EVERY := 2, REVIEW_TAIL_SLOTS := 0, USER_MIN_ATTEMPTS_PER_PICTURE := 1,
    MAX_SCAN_SLOTS_PER_PLAY := 10 }

/-- Small thresholds making a two-attempt state globally ready. -/
def cfgG : Config :=
  { GLOBAL_READY_MIN_TOTAL_ATTEMPTS := 1, GLOBAL_READY_MIN_PICTURES := 1,
    GLOBAL_READY_MIN_ATTEMPTS_PER_PICTURE := 1, GLOBAL_TOP_MISTAKES_LIMIT := 5 }

/-- A one-picture catalog cycle row: cycle 1 open, snapshot 1, one seen. -/
def cycRowSeen : CycleRow := ⟨1, 0, none, 1, 1⟩

/-- A picture row marked seen in cycle 1 with no attempts. -/
def rowSeenA : PicRow := ⟨some 1, some 0, none, 0, 0, 0⟩

/-- A picture row marked seen in cycle 1 with one wrong attempt. -/
def rowMistA : PicRow := ⟨some 1, some 0, some 0, 1, 1, 0⟩

/-- State of a user who has already seen (but never answered) the single
catalog picture "a" in the current cycle, with a zero cursor for day "d". -/
def stSeen : DB :=
  { emptyDB with
    user_cycle_state := fun u => if u = 0 then some cycRowSeen else none
    user_picture_state := [((0, "a"), rowSeenA)]
    user_day_progress := fun u d => if u = 0 ∧ d = "d" then some 0 else none }

/-- State of a user who has seen picture "a" this cycle and answered it
wrongly once. -/
def stMist : DB :=
  { emptyDB with
    user_cycle_state := fun u => if u = 0 then some cycRowSeen else none
    user_picture_state := [((0, "a"), rowMistA)] }

/-- State of a user whose one-picture cycle completed at time 5, before
the catalog grew to two pictures. -/
def stDone : DB :=
  { emptyDB with
    user_cycle_state := fun u => if u = 0 then some ⟨1, 0, some 5, 1, 1⟩ else none
    user_picture_state := [((0, "a"), rowSeenA)] }

/-- State with only a fresh cycle row for user 0 over a one-picture
catalog. -/
def stCyc : DB :=
  { emptyDB with user_cycle_state := fun u => if u = 0 then some ⟨1, 0, none, 1, 0⟩ else none }

/-- A NEW candidate for slot 0 of day "d". -/
def candA : Cand := ⟨"d", 0, 1, 1, SlotKind.NEW, "a"⟩

/-- Global aggregate table with one picture that has attempts above any
small threshold and no wrong answers. -/
def gNoWrong : List (String × GRow) := [("a", ⟨2, 0, 2, none⟩)]

/-- Global aggregate table with two qualifying mistake rows of distinct
wrong ratios. -/
def gTwo : List (String × GRow) := [("b", ⟨5, 1, 4, none⟩), ("a", ⟨5, 3, 2, none⟩)]

/-- A valid raw record of paintings.json. -/
def rawValid : RawItem := ⟨"p1", "T", "A", "1900", "Русский музей", "http://x", ""⟩

/-- A raw record with no id that also fails the museum/image filter. -/
def rawNoId : RawItem := ⟨"", "T2", "A2", "1901", "Louvre", "", ""⟩

/-- The loader input of the C9 counterexample: an id-less invalid record
followed by a valid one. -/
def demoData : List RawItem := [rawNoId, rawValid]

/-- The cleaned catalog produced from `demoData`. -/
def demoCleaned : List Painting := [⟨"p1", "T", "A", "1900", "Русский музей", "http://x", ""⟩]

/-- The candidate returned by the peek of the C2 witness. -/
def candW : Cand := ⟨"d", 0, 1, 1, SlotKind.NEW, "a"⟩

/-- The REVIEW candidate returned by the peek of the C7 witness. -/
def candR : Cand := ⟨"d", 1, 2, 1, SlotKind.REVIEW, "a"⟩

/-- One reachable state: a fresh cycle row created for user 0 over the
one-picture catalog. -/
def stAdv : DB := (get_or_advance_cycle cfg0 ["a"] emptyDB 0 0).1

/-! ## Association-list lemmas -/

theorem alistGet_nil {κ β : Type} [DecidableEq κ] (k : κ) :
    alistGet ([] : List (κ × β)) k = none := rfl

theorem alistGet_cons {κ β : Type} [DecidableEq κ] (e : κ × β) (t : List (κ × β)) (k : κ) :
    alistGet (e :: t) k = if e.1 = k then some e.2 else alistGet t k := by
  by_cases hk : e.1 = k <;> simp [alistGet, List.find?, hk]

theorem alistInsert_cons {κ β : Type} (e : κ × β) (t : List (κ × β)) (k : κ) (v : β) :
    alistInsert (e :: t) k v = e :: alistInsert t k v := rfl

theorem alistUpdate_cons {κ β : Type} [DecidableEq κ] (e : κ × β) (t : List (κ × β))
    (k : κ) (f : β → β) :
    alistUpdate (e :: t) k f = (if e.1 = k then (e.1, f e.2) else e) :: alistUpdate t k f := by
  by_cases hk : e.1 = k <;> simp [alistUpdate, hk]

theorem alistGet_insert_self {κ β : Type} [DecidableEq κ] (l : List (κ × β)) (k : κ) (v : β)
    (h : alistGet l k = none) : alistGet (alistInsert l k v) k = some v := by
  induction l with
  | nil => simp [alistInsert, alistGet_cons, alistGet_nil]
  | cons e t ih =>
      rw [alistGet_cons] at h
      rw [alistInsert_cons, alistGet_cons]
      by_cases hk : e.1 = k
      · rw [if_pos hk] at h; exact absurd h (by simp)
      · rw [if_neg hk] at h
        rw [if_neg hk]
        exact ih h

theorem alistGet_insert_ne {κ β : Type} [DecidableEq κ] (l : List (κ × β)) (k k2 : κ) (v : β)
    (h : k2 ≠ k) : alistGet (alistInsert l k v) k2 = alistGet l k2 := by
  induction l with
  | nil => simp [alistInsert, alistGet_cons, alistGet_nil, Ne.symm h]
  | cons e t ih =>
      rw [alistInsert_cons, alistGet_cons, alistGet_cons]
      by_cases hk : e.1 = k2
      · rw [if_pos hk, if_pos hk]
      · rw [if_neg hk, if_neg hk, ih]

theorem alistGet_update_self {κ β : Type} [DecidableEq κ] (l : List (κ × β)) (k : κ)
    (f : β → β) (v : β) (h : alistGet l k = some v) :
    alistGet (alistUpdate l k f) k = some (f v) := by
  induction l with
  | nil => rw [alistGet_nil] at h; exact absurd h (by simp)
  | cons e t ih =>
      rw [alistGet_cons] at h
      rw [alistUpdate_cons]
      by_cases hk : e.1 = k
      · rw [if_pos hk] at h
        have hv : e.2 = v := by injection h
        rw [if_pos hk, alistGet_cons]
        simp [hk, hv]
      · rw [if_neg hk] at h
        rw [if_neg hk, alistGet_cons, if_neg hk]
        exact ih h

theorem alistGet_update_ne {κ β : Type} [DecidableEq κ] (l : List (κ × β)) (k k2 : κ)
    (f : β → β) (h : k2 ≠ k) : alistGet (alistUpdate l k f) k2 = alistGet l k2 := by
  induction l with
  | nil => simp [alistUpdate, alistGet_nil]
  | cons e t ih =>
      rw [alistUpdate_cons, alistGet_cons, alistGet_cons]
      by_cases hk : e.1 = k
      · have h2 : ¬ e.1 = k2 := by rw [hk]; exact Ne.symm h
        rw [if_pos hk]
        dsimp only
        rw [if_neg h2, if_neg h2, ih]
      · rw [if_neg hk]
        by_cases hk2 : e.1 = k2
        · rw [if_pos hk2, if_pos hk2]
        · rw [if_neg hk2, if_neg hk2, ih]

/-! ## Effect lemmas of the reconciler operations -/

theorem bump_frame (st : DB) (u : Nat) (pid : String) (cyc : Nat) (now : Int) :
    (bump_cycle_seen_if_first_time_this_cycle st u pid cyc now).user_day_progress
        = st.user_day_progress ∧
    (bump_cycle_seen_if_first_time_this_cycle st u pid cyc now).daily_quota = st.daily_quota ∧
    (bump_cycle_seen_if_first_time_this_cycle st u pid cyc now).global_daily_plan
        = st.global_daily_plan ∧
    (bump_cycle_seen_if_first_time_this_cycle st u pid cyc now).global_picture_state
        = st.global_picture_state ∧
    (bump_cycle_seen_if_first_time_this_cycle st u pid cyc now).pending = st.pending := by
  unfold bump_cycle_seen_if_first_time_this_cycle setCycle
  cases hrow : upsGet st u pid <;> dsimp only <;> split <;>
    first
      | exact ⟨rfl, rfl, rfl, rfl, rfl⟩
      | (cases hcyc : st.user_cycle_state u <;> dsimp only [hcyc] <;>
          (try split) <;> exact ⟨rfl, rfl, rfl, rfl, rfl⟩)

theorem bump_ups (st : DB) (u : Nat) (pid : String) (cyc : Nat) (now : Int) :
    (bump_cycle_seen_if_first_time_this_cycle st u pid cyc now).user_picture_state =
      (match upsGet st u pid with
      | none => alistInsert st.user_picture_state (u, pid) ⟨some cyc, some now, none, 0, 0, 0⟩
      | some _ => alistUpdate st.user_picture_state (u, pid)
          (fun r => { r with last_seen_cycle_id := some cyc, last_seen_at := some now })) := by
  unfold bump_cycle_seen_if_first_time_this_cycle setCycle
  cases hrow : upsGet st u pid <;> dsimp only <;> split <;>
    first
      | rfl
      | (cases hcyc : st.user_cycle_state u <;> dsimp only [hcyc] <;>
          (try split) <;> rfl)

theorem lscOf_bump_self (st : DB) (u : Nat) (pid : String) (cyc : Nat) (now : Int) :
    lscOf (bump_cycle_seen_if_first_time_this_cycle st u pid cyc now) u pid = some cyc := by
  unfold lscOf upsGet
  rw [bump_ups]
  cases hrow : upsGet st u pid <;> dsimp only
  · rw [alistGet_insert_self _ _ _ hrow]
  · rw [alistGet_update_self _ _ _ _ hrow]

theorem bump_ucs_not_first (st : DB) (u : Nat) (pid : String) (cyc : Nat) (now : Int)
    (h : lscOf st u pid = some cyc) :
    (bump_cycle_seen_if_first_time_this_cycle st u pid cyc now).user_cycle_state
      = st.user_cycle_state := by
  unfold bump_cycle_seen_if_first_time_this_cycle
  cases hrow : upsGet st u pid <;> dsimp only
  · simp only [lscOf, hrow] at h
    exact absurd h (by simp)
  · simp only [lscOf, hrow] at h
    rw [h]
    simp

theorem commit_udp (st : DB) (u : Nat) (cand : Cand) (today : String) (now : Int) :
    (commit_candidate st u cand today now).user_day_progress =
      (set_user_day_cursor st u cand.day_key cand.next_cursor).user_day_progress := by
  unfold commit_candidate inc_used_today_tx
  dsimp only
  exact (bump_frame _ _ _ _ _).1

theorem commit_ucs (st : DB) (u : Nat) (cand : Cand) (today : String) (now : Int) :
    (commit_candidate st u cand today now).user_cycle_state =
      (bump_cycle_seen_if_first_time_this_cycle
        (set_user_day_cursor st u cand.day_key cand.next_cursor) u cand.picture_id
        cand.cycle_id now).user_cycle_state := rfl

theorem commit_quota_self (st : DB) (u : Nat) (cand : Cand) (today : String) (now : Int) :
    (commit_candidate st u cand today now).daily_quota u today
      = some ((st.daily_quota u today).getD 0 + 1) := by
  unfold commit_candidate inc_used_today_tx
  dsimp only
  rw [(bump_frame _ _ _ _ _).2.1]
  simp [set_user_day_cursor]

/-- C1 (corrected, counterexample): replaying `commit` with the same
candidate does not leave the daily quota counter as after the first
application: on a concrete state the counter is 1 after the first
commit and 2 after the replay. -/
theorem commit_replay_quota_counterexample :
    (commit_candidate stCyc 0 candA "d" 10).daily_quota 0 "d" = some 1 ∧
    (commit_candidate (commit_candidate stCyc 0 candA "d" 10) 0 candA "d" 20).daily_quota
      0 "d" = some 2 := by
  exact ⟨by decide, by decide⟩

/-- C1 (amended): replaying `skip` with the same candidate is a complete
no-op on the state; replaying `commit` with the same candidate leaves
the cursor table and the cycle-seen state (the whole `user_cycle_state`
row, hence the seen counts) exactly as after the first application, but
adds one more to the daily quota counter each time it is replayed. -/
theorem commit_skip_replay (st : DB) (u : Nat) (cand : Cand) (today : String)
    (n1 n2 : Int) :
    skip_candidate_slot (skip_candidate_slot st u cand) u cand
        = skip_candidate_slot st u cand ∧
    (commit_candidate (commit_candidate st u cand today n1) u cand today n2).user_day_progress
        = (commit_candidate st u cand today n1).user_day_progress ∧
    (commit_candidate (commit_candidate st u cand today n1) u cand today n2).user_cycle_state
        = (commit_candidate st u cand today n1).user_cycle_state ∧
    ∃ q, (commit_candidate st u cand today n1).daily_quota u today = some q ∧
      (commit_candidate (commit_candidate st u cand today n1) u cand today n2).daily_quota
        u today = some (q + 1) := by
  refine ⟨?_, ?_, ?_, ?_⟩
  · unfold skip_candidate_slot set_user_day_cursor
    congr 1
    funext u2 d2
    by_cases h : u2 = u ∧ d2 = cand.day_key <;> simp [h]
  · funext u2 d2
    simp only [commit_udp]
    unfold set_user_day_cursor
    dsimp only
    by_cases h : u2 = u ∧ d2 = cand.day_key <;> simp [h, commit_udp, set_user_day_cursor]
  · have hl : lscOf (set_user_day_cursor (commit_candidate st u cand today n1) u
        cand.day_key cand.next_cursor) u cand.picture_id = some cand.cycle_id :=
      lscOf_bump_self (set_user_day_cursor st u cand.day_key cand.next_cursor) u
        cand.picture_id cand.cycle_id n1
    rw [commit_ucs, bump_ucs_not_first _ _ _ _ _ hl]
    rfl
  · refine ⟨(st.daily_quota u today).getD 0 + 1, commit_quota_self _ _ _ _ _, ?_⟩
    rw [commit_quota_self, commit_quota_self]
    simp

theorem ga_frame (cfg : Config) (catalog : List String) (st : DB) (u : Nat) (now : Int) :
    (get_or_advance_cycle cfg catalog st u now).1.user_day_progress = st.user_day_progress ∧
    (get_or_advance_cycle cfg catalog st u now).1.user_picture_state = st.user_picture_state ∧
    (get_or_advance_cycle cfg catalog st u now).1.daily_quota = st.daily_quota ∧
    (get_or_advance_cycle cfg catalog st u now).1.global_daily_plan = st.global_daily_plan ∧
    (get_or_advance_cycle cfg catalog st u now).1.global_picture_state
        = st.global_picture_state ∧
    (get_or_advance_cycle cfg catalog st u now).1.pending = st.pending := by
  unfold get_or_advance_cycle setCycle
  cases h : st.user_cycle_state u <;> dsimp only
  · exact ⟨rfl, rfl, rfl, rfl, rfl, rfl⟩
  · rename_i r
    by_cases hg : r.total_pictures_snapshot < catalog.length
    · simp only [if_pos hg]
      simp
    · simp only [if_neg hg]
      split
      · split <;> simp
      · simp

theorem ensure_plan_frame (cfg : Config) (secret : String) (catalog : List String)
    (st : DB) (day_key : String) :
    (ensure_global_daily_plan cfg secret catalog st day_key).1.user_day_progress
        = st.user_day_progress ∧
    (ensure_global_daily_plan cfg secret catalog st day_key).1.user_cycle_state
        = st.user_cycle_state ∧
    (ensure_global_daily_plan cfg secret catalog st day_key).1.user_picture_state
        = st.user_picture_state ∧
    (ensure_global_daily_plan cfg secret catalog st day_key).1.daily_quota
        = st.daily_quota ∧
    (ensure_global_daily_plan cfg secret catalog st day_key).1.global_picture_state
        = st.global_picture_state ∧
    (ensure_global_daily_plan cfg secret catalog st day_key).1.pending = st.pending := by
  unfold ensure_global_daily_plan
  cases h : st.global_daily_plan day_key <;> dsimp only <;>
    exact ⟨rfl, rfl, rfl, rfl, rfl, rfl⟩

theorem ensure_udp_spec (st : DB) (u : Nat) (day : String) :
    (ensure_user_day_progress st u day).2 = cursorVal st u day ∧
    (ensure_user_day_progress st u day).1.user_cycle_state = st.user_cycle_state ∧
    (ensure_user_day_progress st u day).1.user_picture_state = st.user_picture_state ∧
    (ensure_user_day_progress st u day).1.daily_quota = st.daily_quota ∧
    (ensure_user_day_progress st u day).1.global_daily_plan = st.global_daily_plan ∧
    (ensure_user_day_progress st u day).1.global_picture_state = st.global_picture_state ∧
    (ensure_user_day_progress st u day).1.pending = st.pending ∧
    cursorVal (ensure_user_day_progress st u day).1 u day = cursorVal st u day ∧
    (∀ u2 d2, ¬(u2 = u ∧ d2 = day) →
      (ensure_user_day_progress st u day).1.user_day_progress u2 d2
        = st.user_day_progress u2 d2) := by
  unfold ensure_user_day_progress cursorVal set_user_day_cursor
  cases h : st.user_day_progress u day <;> dsimp only
  · refine ⟨by simp, rfl, rfl, rfl, rfl, rfl, rfl, by simp, ?_⟩
    intro u2 d2 h2
    simp [h2]
  · exact ⟨rfl, rfl, rfl, rfl, rfl, rfl, rfl, by rw [h], fun _ _ _ => rfl⟩

theorem peekScanGo_spec (cfg : Config) (secret : String) (catalog : List String) (st : DB)
    (u : Nat) (day : String) (items : List Slot) (cyc : Nat) :
    ∀ fuel i,
      i ≤ (peekScanGo cfg secret catalog st u day items cyc fuel i).2 ∧
      (∀ cand, (peekScanGo cfg secret catalog st u day items cyc fuel i).1 = some cand →
        cand.next_cursor = cand.slot_index + 1 ∧ cand.day_key = day ∧ cand.cycle_id = cyc ∧
        (cand.kind = SlotKind.REVIEW →
          ∃ r, upsGet st u cand.picture_id = some r ∧ 1 ≤ r.attempts)) := by
  intro fuel
  induction fuel with
  | zero =>
      intro i
      exact ⟨le_refl i, fun cand h => absurd h (by simp [peekScanGo])⟩
  | succ fuel ih =>
      intro i
      unfold peekScanGo
      cases hslot : items.get? i <;> dsimp only
      · exact ⟨le_refl i, fun cand h => absurd h (by simp)⟩
      · rename_i slot
        cases hk : slot.kind <;> dsimp only
        · cases hpid : slot.picture_id <;> dsimp only
          · exact ⟨le_trans (Nat.le_succ i) (ih (i + 1)).1, (ih (i + 1)).2⟩
          · rename_i pid
            by_cases hacc : new_slot_accept catalog st u cyc pid = true
            · rw [if_pos hacc]
              refine ⟨le_refl i, ?_⟩
              intro cand h
              have hc : cand = ⟨day, i, i + 1, cyc, SlotKind.NEW, pid⟩ :=
                (Option.some_injective _ h).symm
              subst hc
              refine ⟨rfl, rfl, rfl, ?_⟩
              intro hkk
              exact absurd hkk (by simp)
            · rw [if_neg hacc]
              exact ⟨le_trans (Nat.le_succ i) (ih (i + 1)).1, (ih (i + 1)).2⟩
        · by_cases hacc : review_slot_accept catalog st u
              (review_slot_choice cfg secret catalog st u day i slot.picture_id) = true
          · rw [if_pos hacc]
            refine ⟨le_refl i, ?_⟩
            intro cand h
            have hc : cand = ⟨day, i, i + 1, cyc, SlotKind.REVIEW,
                (review_slot_choice cfg secret catalog st u day i slot.picture_id).getD ""⟩ :=
              (Option.some_injective _ h).symm
            subst hc
            refine ⟨rfl, rfl, rfl, ?_⟩
            intro _
            unfold review_slot_accept at hacc
            simp only [Bool.and_eq_true] at hacc
            have helig := hacc.2
            unfold review_is_eligible at helig
            cases hrow : upsGet st u
                ((review_slot_choice cfg secret catalog st u day i slot.picture_id).getD "") with
            | none => rw [hrow] at helig; exact absurd helig (by simp)
            | some r =>
                rw [hrow] at helig
                exact ⟨r, rfl, of_decide_eq_true helig⟩
          · rw [if_neg hacc]
            exact ⟨le_trans (Nat.le_succ i) (ih (i + 1)).1, (ih (i + 1)).2⟩

theorem peek_spec (cfg : Config) (secret : String) (catalog : List String) (st : DB)
    (u : Nat) (day : String) (now : Int) :
    (peek_next_candidate cfg secret catalog st u day now).1.user_picture_state
        = st.user_picture_state ∧
    cursorVal st u day
        ≤ cursorVal (peek_next_candidate cfg secret catalog st u day now).1 u day ∧
    (∀ u2 d2, ¬(u2 = u ∧ d2 = day) →
      (peek_next_candidate cfg secret catalog st u day now).1.user_day_progress u2 d2
        = st.user_day_progress u2 d2) ∧
    (∀ cand, (peek_next_candidate cfg secret catalog st u day now).2 = some cand →
      cursorVal (peek_next_candidate cfg secret catalog st u day now).1 u day
          = cursorVal st u day ∧
      cand.next_cursor = cand.slot_index + 1 ∧ cand.day_key = day ∧
      (cand.kind = SlotKind.REVIEW →
        ∃ r, upsGet st u cand.picture_id = some r ∧ 1 ≤ r.attempts)) := by
  obtain ⟨hp1, hp2, hp3, hp4, hp5, hp6⟩ := ensure_plan_frame cfg secret catalog st day
  obtain ⟨hu1, hu2, hu3, hu4, hu5, hu6, hu7, hu8, hu9⟩ :=
    ensure_udp_spec (ensure_global_daily_plan cfg secret catalog st day).1 u day
  obtain ⟨hg1, hg2, hg3, hg4, hg5, hg6⟩ := ga_frame cfg catalog
    (ensure_user_day_progress (ensure_global_daily_plan cfg secret catalog st day).1 u day).1
    u now
  have hups3 : (get_or_advance_cycle cfg catalog
      (ensure_user_day_progress (ensure_global_daily_plan cfg secret catalog st day).1 u day).1
      u now).1.user_picture_state = st.user_picture_state := by
    rw [hg2, hu3, hp3]
  have hc3 : cursorVal (get_or_advance_cycle cfg catalog
      (ensure_user_day_progress (ensure_global_daily_plan cfg secret catalog st day).1 u day).1
      u now).1 u day = cursorVal st u day := by
    unfold cursorVal
    unfold cursorVal at hu8
    rw [hg1, hu8, hp1]
  have hsc := peekScanGo_spec cfg secret catalog
    (get_or_advance_cycle cfg catalog
      (ensure_user_day_progress (ensure_global_daily_plan cfg secret catalog st day).1 u day).1
      u now).1
    u day (ensure_global_daily_plan cfg secret catalog st day).2
    (get_or_advance_cycle cfg catalog
      (ensure_user_day_progress (ensure_global_daily_plan cfg secret catalog st day).1 u day).1
      u now).2.1
    cfg.MAX_SCAN_SLOTS_PER_PLAY
    (ensure_user_day_progress (ensure_global_daily_plan cfg secret catalog st day).1 u day).2
  unfold peek_next_candidate
  dsimp only
  refine ⟨?_, ?_, ?_, ?_⟩
  · split
    · exact hups3
    · unfold set_user_day_cursor
      exact hups3
  · split
    · rw [hc3]
    · unfold cursorVal set_user_day_cursor
      dsimp only
      rw [if_pos ⟨rfl, rfl⟩]
      have hstart : (st.user_day_progress u day).getD 0 =
          (ensure_user_day_progress (ensure_global_daily_plan cfg secret catalog st day).1
            u day).2 := by
        rw [hu1]
        unfold cursorVal
        rw [hp1]
      simp only [Option.getD_some]
      rw [hstart]
      exact hsc.1
  · intro u2 d2 h2
    split
    · rw [hg1, hu9 u2 d2 h2, hp1]
    · unfold set_user_day_cursor
      dsimp only
      rw [if_neg h2, hg1, hu9 u2 d2 h2, hp1]
  · intro cand hcand
    revert hcand
    split
    · rename_i cand0 heq
      intro hcand
      have hc : cand0 = cand := by
        dsimp only at hcand
        exact Option.some_injective _ hcand
      subst hc
      obtain ⟨hnext, hday, hcyc, hrev⟩ := hsc.2 cand0 heq
      refine ⟨hc3, hnext, hday, ?_⟩
      intro hkk
      obtain ⟨r, hr, hat⟩ := hrev hkk
      refine ⟨r, ?_, hat⟩
      unfold upsGet
      unfold upsGet at hr
      rw [← hups3]
      exact hr
    · intro hcand
      exact absurd hcand (by simp)

/-- C2: for every candidate returned by the scheduler peek, skip changes
only the UserDayProgress cursor entry of that user and day (daily quota,
cycle state, picture state, plan, global counters and pending state are
untouched), setting it to the candidate's next_cursor; commit also sets
the cursor to next_cursor; and next_cursor is strictly past slot_index,
being slot_index + 1. -/
theorem skip_commit_cursor_effects (cfg : Config) (secret : String) (catalog : List String)
    (st : DB) (u : Nat) (day : String) (now : Int) (cand : Cand) (today : String)
    (n2 : Int)
    (h : (peek_next_candidate cfg secret catalog st u day now).2 = some cand) :
    cand.next_cursor = cand.slot_index + 1 ∧
    cand.slot_index < cand.next_cursor ∧
    (skip_candidate_slot (peek_next_candidate cfg secret catalog st u day now).1 u
        cand).user_day_progress u cand.day_key = some cand.next_cursor ∧
    (∀ u2 d2, ¬(u2 = u ∧ d2 = cand.day_key) →
      (skip_candidate_slot (peek_next_candidate cfg secret catalog st u day now).1 u
          cand).user_day_progress u2 d2
        = (peek_next_candidate cfg secret catalog st u day now).1.user_day_progress u2 d2) ∧
    (skip_candidate_slot (peek_next_candidate cfg secret catalog st u day now).1 u
        cand).daily_quota
      = (peek_next_candidate cfg secret catalog st u day now).1.daily_quota ∧
    (skip_candidate_slot (peek_next_candidate cfg secret catalog st u day now).1 u
        cand).user_cycle_state
      = (peek_next_candidate cfg secret catalog st u day now).1.user_cycle_state ∧
    (skip_candidate_slot (peek_next_candidate cfg secret catalog st u day now).1 u
        cand).user_picture_state
      = (peek_next_candidate cfg secret catalog st u day now).1.user_picture_state ∧
    (skip_candidate_slot (peek_next_candidate cfg secret catalog st u day now).1 u
        cand).global_daily_plan
      = (peek_next_candidate cfg secret catalog st u day now).1.global_daily_plan ∧
    (skip_candidate_slot (peek_next_candidate cfg secret catalog st u day now).1 u
        cand).global_picture_state
      = (peek_next_candidate cfg secret catalog st u day now).1.global_picture_state ∧
    (skip_candidate_slot (peek_next_candidate cfg secret catalog st u day now).1 u
        cand).pending
      = (peek_next_candidate cfg secret catalog st u day now).1.pending ∧
    (commit_candidate (peek_next_candidate cfg secret catalog st u day now).1 u cand
        today n2).user_day_progress u cand.day_key = some cand.next_cursor := by
  have hnext := ((peek_spec cfg secret catalog st u day now).2.2.2 cand h).2.1
  refine ⟨hnext, by rw [hnext]; exact Nat.lt_succ_self _, ?_, ?_, rfl, rfl, rfl, rfl, rfl,
    rfl, ?_⟩
  · unfold skip_candidate_slot set_user_day_cursor
    dsimp only
    rw [if_pos ⟨rfl, rfl⟩]
  · intro u2 d2 h2
    unfold skip_candidate_slot set_user_day_cursor
    dsimp only
    rw [if_neg h2]
  · rw [commit_udp]
    unfold set_user_day_cursor
    dsimp only
    rw [if_pos ⟨rfl, rfl⟩]

/-- C2 witness: on a fresh database over the one-picture catalog the
peek returns the NEW candidate of slot 0, whose next_cursor is 1 =
slot_index + 1, and skipping it sets the cursor of (user 0, day "d")
to 1. -/
theorem skip_commit_cursor_effects_witness :
    candW.next_cursor = candW.slot_index + 1 ∧
    (skip_candidate_slot (peek_next_candidate cfgW "s" ["a"] emptyDB 0 "d" 0).1 0
        candW).user_day_progress 0 "d" = some 1 := by
  have h := skip_commit_cursor_effects cfgW "s" ["a"] emptyDB 0 "d" 0 candW "d" 1
    (by decide)
  exact ⟨h.1, h.2.2.1⟩

/-- C3 (corrected, counterexample): the scheduler scan is not read-only
on the cursor: on a concrete state where no scanned slot qualifies, peek
returns none and itself persists the cursor forward from 0 to 1. -/
theorem peek_writes_cursor_counterexample :
    (peek_next_candidate cfgScan "s" ["a"] stSeen 0 "d" 0).2 = none ∧
    stSeen.user_day_progress 0 "d" = some 0 ∧
    (peek_next_candidate cfgScan "s" ["a"] stSeen 0 "d" 0).1.user_day_progress 0 "d"
      = some 1 :=
  ⟨by decide, by decide, by decide⟩

/-- C3 (amended): during the scheduler scan the persisted cursor never
decreases, and no other user's or day's cursor is touched; when a
candidate is returned the scan leaves the cursor exactly unchanged, the
cursor being written by the scan only when it returns no candidate (to
persist the dead-zone boundary), and otherwise advanced only by the
reconciler's commit and skip. -/
theorem peek_cursor_monotone (cfg : Config) (secret : String) (catalog : List String)
    (st : DB) (u : Nat) (day : String) (now : Int) :
    cursorVal st u day
        ≤ cursorVal (peek_next_candidate cfg secret catalog st u day now).1 u day ∧
    (∀ u2 d2, ¬(u2 = u ∧ d2 = day) →
      (peek_next_candidate cfg secret catalog st u day now).1.user_day_progress u2 d2
        = st.user_day_progress u2 d2) ∧
    (∀ cand, (peek_next_candidate cfg secret catalog st u day now).2 = some cand →
      cursorVal (peek_next_candidate cfg secret catalog st u day now).1 u day
        = cursorVal st u day) := by
  obtain ⟨_, hmono, hframe, hsome⟩ := peek_spec cfg secret catalog st u day now
  exact ⟨hmono, hframe, fun cand hc => (hsome cand hc).1⟩

/-- C3 witness: on the fresh-database peek that returns a candidate, the
cursor is unchanged (and in particular has not decreased). -/
theorem peek_cursor_monotone_witness :
    cursorVal emptyDB 0 "d"
        ≤ cursorVal (peek_next_candidate cfgW "s" ["a"] emptyDB 0 "d" 0).1 0 "d" ∧
    cursorVal (peek_next_candidate cfgW "s" ["a"] emptyDB 0 "d" 0).1 0 "d"
        = cursorVal emptyDB 0 "d" := by
  have h := peek_cursor_monotone cfgW "s" ["a"] emptyDB 0 "d" 0
  exact ⟨h.1, h.2.2 candW (by decide)⟩

/-- C7: whenever the scheduler peek returns a REVIEW candidate, the user
has at least one recorded attempt on that picture in
user_picture_state; a REVIEW candidate is never produced for an item
with zero prior attempts. -/
theorem review_candidate_has_attempt (cfg : Config) (secret : String)
    (catalog : List String) (st : DB) (u : Nat) (day : String) (now : Int) (cand : Cand)
    (h : (peek_next_candidate cfg secret catalog st u day now).2 = some cand)
    (hk : cand.kind = SlotKind.REVIEW) :
    ∃ r, upsGet st u cand.picture_id = some r ∧ 1 ≤ r.attempts :=
  ((peek_spec cfg secret catalog st u day now).2.2.2 cand h).2.2.2 hk

/-- C7 witness: the user of `stMist` has one attempt on "a"; the peek
returns the REVIEW candidate bound to "a" and the attempt count is
confirmed positive. -/
theorem review_candidate_has_attempt_witness :
    (peek_next_candidate cfgR "s" ["a"] stMist 0 "d" 0).2 = some candR ∧
    ∃ r, upsGet stMist 0 candR.picture_id = some r ∧ 1 ≤ r.attempts := by
  refine ⟨by decide, ?_⟩
  exact review_candidate_has_attempt cfgR "s" ["a"] stMist 0 "d" 0 candR (by decide)
    (by decide)

/-- C4: the plan of a day is produced deterministically: with the same
server secret and the same catalog snapshot, a second independent run of
the plan generator returns exactly the slot sequence of the first run
(same kinds and same bound picture ids in the same order), even if every
aggregate and per-user table changed arbitrarily between the runs,
because the first run persists its plan with insert-if-absent semantics
and any later run returns the stored plan. -/
theorem plan_generation_deterministic (cfg : Config) (secret : String)
    (catalog : List String) (st : DB) (day : String)
    (g2 : List (String × GRow)) (ups2 : List ((Nat × String) × PicRow))
    (ucs2 : Nat → Option CycleRow) (udp2 : Nat → String → Option Nat)
    (dq2 : Nat → String → Option Nat) (pe2 : Nat → Option Cand) :
    (ensure_global_daily_plan cfg secret catalog
      { (ensure_global_daily_plan cfg secret catalog st day).1 with
          global_picture_state := g2, user_picture_state := ups2,
          user_cycle_state := ucs2, user_day_progress := udp2,
          daily_quota := dq2, pending := pe2 } day).2
      = (ensure_global_daily_plan cfg secret catalog st day).2 := by
  unfold ensure_global_daily_plan
  cases h : st.global_daily_plan day <;> dsimp only <;> simp [h]

/-- C10: in the interleave section of the daily plan, REVIEW_EVERY ≤ 0
inserts no REVIEW slot among the NEW permutation, and REVIEW_EVERY of 1
or 2 makes the effective period max 1 (REVIEW_EVERY - 1) equal to one,
so exactly one REVIEW slot follows every single NEW slot, bound
round-robin in review-cursor order. -/
theorem interleave_review_pattern (cfg : Config) (global_ready : Bool)
    (review_ids new_order : List String) :
    (cfg.REVIEW_EVERY ≤ 0 →
      (interleaveNewGo cfg global_ready review_ids new_order 0 0).1
        = new_order.map (fun pid => ⟨SlotKind.NEW, some pid⟩)) ∧
    ((cfg.REVIEW_EVERY = 1 ∨ cfg.REVIEW_EVERY = 2) →
      (interleaveNewGo cfg global_ready review_ids new_order 0 0).1
        = pairedMiddle global_ready review_ids new_order 0) := by
  constructor
  · intro hle
    have hgen : ∀ (l : List String) (nsr rc : Nat),
        (interleaveNewGo cfg global_ready review_ids l nsr rc).1
          = l.map (fun pid => ⟨SlotKind.NEW, some pid⟩) := by
      intro l
      induction l with
      | nil => intro nsr rc; rfl
      | cons pid rest ih =>
          intro nsr rc
          unfold interleaveNewGo
          rw [if_neg]
          · dsimp only
            rw [ih]
            rfl
          · intro hc
            exact absurd (lt_of_lt_of_le hc.1 hle) (by simp)
    exact hgen new_order 0 0
  · intro hre
    have hmax : max 1 (cfg.REVIEW_EVERY - 1) = 1 := by
      rcases hre with h1 | h2
      · rw [h1]; rfl
      · rw [h2]; rfl
    have hpos : (0 : Int) < cfg.REVIEW_EVERY := by
      rcases hre with h1 | h2
      · rw [h1]; exact zero_lt_one
      · rw [h2]; exact zero_lt_two
    have hgen : ∀ (l : List String) (rc : Nat),
        (interleaveNewGo cfg global_ready review_ids l 0 rc).1
          = pairedMiddle global_ready review_ids l rc := by
      intro l
      induction l with
      | nil => intro rc; rfl
      | cons pid rest ih =>
          intro rc
          unfold interleaveNewGo pairedMiddle
          rw [if_pos]
          · dsimp only
            rw [ih]
          · refine ⟨hpos, ?_⟩
            rw [hmax]
            simp
    exact hgen new_order 0

/-- C10 witness: with REVIEW_EVERY = 0 the two-picture interleave is two
bare NEW slots, and with REVIEW_EVERY = 2 it is the paired NEW/REVIEW
form. -/
theorem interleave_review_pattern_witness :
    (interleaveNewGo cfgScan true ["r1"] ["x", "y"] 0 0).1
      = [⟨SlotKind.NEW, some "x"⟩, ⟨SlotKind.NEW, some "y"⟩] ∧
    (interleaveNewGo cfgR true ["r1", "r2"] ["x", "y", "z"] 0 0).1
      = pairedMiddle true ["r1", "r2"] ["x", "y", "z"] 0 := by
  constructor
  · rw [(interleave_review_pattern cfgScan true ["r1"] ["x", "y"]).1 (by decide)]
    rfl
  · exact (interleave_review_pattern cfgR true ["r1", "r2"] ["x", "y", "z"]).2
      (Or.inr (by decide))

/-- C8: when a user's cycle is completed and the live catalog exceeds
the stored snapshot, the same cycle call bumps the snapshot to the live
size and clears completed_at — same cycle id, seen count kept, no
cooldown wait — and every picture the user has no state row for (in
particular the newly added ones) passes the NEW-slot acceptance test of
the scan for the current cycle. -/
theorem catalog_growth_reopens_cycle (cfg : Config) (catalog : List String) (st : DB)
    (u : Nat) (now : Int) (c : CycleRow) (t : Int)
    (hc : st.user_cycle_state u = some c) (hdone : c.completed_at = some t)
    (hgrow : c.total_pictures_snapshot < catalog.length) :
    (get_or_advance_cycle cfg catalog st u now).2
        = (c.cycle_id, catalog.length, c.seen_count, none) ∧
    (get_or_advance_cycle cfg catalog st u now).1.user_cycle_state u
        = some { c with total_pictures_snapshot := catalog.length, completed_at := none } ∧
    (∀ pid, pid ≠ "" → pid ∈ catalog → upsGet st u pid = none →
      new_slot_accept catalog (get_or_advance_cycle cfg catalog st u now).1 u c.cycle_id
        pid = true) := by
  unfold get_or_advance_cycle
  rw [hc]
  dsimp only
  simp only [if_pos hgrow]
  refine ⟨trivial, ?_, ?_⟩
  · unfold setCycle
    dsimp only
    rw [if_pos rfl]
  · intro pid h1 h2 h3
    unfold new_slot_accept lscOf upsGet setCycle
    unfold upsGet at h3
    dsimp only
    rw [h3]
    simp [h1, h2]

/-- C8 witness: user 0 completed the one-picture cycle at time 5; after
the catalog grew to two pictures, the cycle call at time 6 returns the
reopened row with snapshot 2 and no completion, and the new picture "b"
is accepted as NEW. -/
theorem catalog_growth_reopens_cycle_witness :
    (get_or_advance_cycle cfg0 ["a", "b"] stDone 0 6).2 = (1, 2, 1, none) ∧
    (get_or_advance_cycle cfg0 ["a", "b"] stDone 0 6).1.user_cycle_state 0
        = some ⟨1, 0, none, 2, 1⟩ ∧
    new_slot_accept ["a", "b"] (get_or_advance_cycle cfg0 ["a", "b"] stDone 0 6).1 0 1 "b"
        = true := by
  have h := catalog_growth_reopens_cycle cfg0 ["a", "b"] stDone 0 6 ⟨1, 0, some 5, 1, 1⟩ 5
    (by decide) rfl (by decide)
  exact ⟨h.1, h.2.1, h.2.2 "b" (by decide) (by decide) (by decide)⟩

/-! ## The ORDER BY relation of the top-mistake queries -/

theorem rankPairBefore_total (a b : Nat × Nat) :
    rankPairBefore a b ∨ rankPairBefore b a := by
  unfold rankPairBefore
  rcases lt_trichotomy (wrongRatio a.1 a.2) (wrongRatio b.1 b.2) with h | h | h
  · right; left; exact h
  · rcases le_total a.2 b.2 with h2 | h2
    · right; right; exact ⟨h.symm, h2⟩
    · left; right; exact ⟨h, h2⟩
  · left; left; exact h

theorem rankPairBefore_trans (a b c : Nat × Nat) (hab : rankPairBefore a b)
    (hbc : rankPairBefore b c) : rankPairBefore a c := by
  unfold rankPairBefore at hab hbc ⊢
  rcases hab with h1 | ⟨h1e, h1a⟩ <;> rcases hbc with h2 | ⟨h2e, h2a⟩
  · left; exact lt_trans h2 h1
  · left; rw [← h2e]; exact h1
  · left; rw [h1e]; exact h2
  · right; exact ⟨h1e.trans h2e, le_trans h2a h1a⟩

instance : IsTotal (String × GRow) gRank :=
  ⟨fun a b => rankPairBefore_total _ _⟩

instance : IsTrans (String × GRow) gRank :=
  ⟨fun _ _ _ => rankPairBefore_trans _ _ _⟩

/-- C5 (corrected, counterexample): with readiness satisfied, a picture
whose attempts reach the per-picture threshold but has no wrong answers
is excluded from the top-mistakes list, so the list does not contain
exactly the items with attempts ≥ threshold_B. -/
theorem top_mistakes_needs_wrong_counterexample :
    is_global_ready cfgG gNoWrong = true ∧
    (∃ e, e ∈ gNoWrong ∧ e.1 ∈ (["a"] : List String) ∧
      cfgG.GLOBAL_READY_MIN_ATTEMPTS_PER_PICTURE ≤ e.2.attempts) ∧
    get_global_top_mistakes cfgG ["a"] gNoWrong = [] := by
  refine ⟨by decide, ⟨("a", ⟨2, 0, 2, none⟩), by decide, by decide, by decide⟩, by decide⟩

/-- C5 (amended): when global readiness holds, the ranked top-mistakes
list contains only catalog items whose row has attempts ≥ threshold_B
and wrong > 0; the truncated sorted row list is ordered by wrong/attempts
descending with ties broken by attempts descending (the gRank relation);
and whenever the qualifying rows fit under the configured limit and all
their ids are in the catalog, the list contains exactly the ids of the
qualifying rows. -/
theorem global_top_mistakes_ranked (cfg : Config) (catalog : List String)
    (g : List (String × GRow)) (hready : is_global_ready cfg g = true) :
    (∀ pid ∈ get_global_top_mistakes cfg catalog g, pid ∈ catalog ∧
      ∃ e, e ∈ g ∧ e.1 = pid ∧ cfg.GLOBAL_READY_MIN_ATTEMPTS_PER_PICTURE ≤ e.2.attempts ∧
        0 < e.2.wrong) ∧
    List.Sorted gRank ((List.insertionSort gRank (g.filter (fun e =>
      decide (cfg.GLOBAL_READY_MIN_ATTEMPTS_PER_PICTURE ≤ e.2.attempts) &&
      decide (0 < e.2.wrong)))).take cfg.GLOBAL_TOP_MISTAKES_LIMIT) ∧
    ((g.filter (fun e =>
        decide (cfg.GLOBAL_READY_MIN_ATTEMPTS_PER_PICTURE ≤ e.2.attempts) &&
        decide (0 < e.2.wrong))).length ≤ cfg.GLOBAL_TOP_MISTAKES_LIMIT →
      (∀ e ∈ g.filter (fun e =>
        decide (cfg.GLOBAL_READY_MIN_ATTEMPTS_PER_PICTURE ≤ e.2.attempts) &&
        decide (0 < e.2.wrong)), e.1 ∈ catalog) →
      (get_global_top_mistakes cfg catalog g).Perm
        ((g.filter (fun e =>
          decide (cfg.GLOBAL_READY_MIN_ATTEMPTS_PER_PICTURE ≤ e.2.attempts) &&
          decide (0 < e.2.wrong))).map (fun e => e.1))) := by
  refine ⟨?_, ?_, ?_⟩
  · intro pid hmem
    unfold get_global_top_mistakes at hmem
    dsimp only at hmem
    obtain ⟨hmap, hcat⟩ := List.mem_filter.mp hmem
    refine ⟨of_decide_eq_true hcat, ?_⟩
    obtain ⟨e, he, hepid⟩ := List.mem_map.mp hmap
    have hsorted : e ∈ List.insertionSort gRank (g.filter (fun e =>
        decide (cfg.GLOBAL_READY_MIN_ATTEMPTS_PER_PICTURE ≤ e.2.attempts) &&
        decide (0 < e.2.wrong))) :=
      (List.take_sublist _ _).mem he
    have hq := (List.perm_insertionSort gRank _).mem_iff.mp hsorted
    obtain ⟨heg, hcond⟩ := List.mem_filter.mp hq
    simp only [Bool.and_eq_true] at hcond
    exact ⟨e, heg, hepid, of_decide_eq_true hcond.1, of_decide_eq_true hcond.2⟩
  · exact (List.sorted_insertionSort gRank _).sublist (List.take_sublist _ _)
  · intro hlen hcat
    unfold get_global_top_mistakes
    dsimp only
    have hslen : (List.insertionSort gRank (g.filter (fun e =>
        decide (cfg.GLOBAL_READY_MIN_ATTEMPTS_PER_PICTURE ≤ e.2.attempts) &&
        decide (0 < e.2.wrong)))).length ≤ cfg.GLOBAL_TOP_MISTAKES_LIMIT := by
      rw [(List.perm_insertionSort gRank _).length_eq]
      exact hlen
    rw [List.take_of_length_le hslen]
    have hall : ∀ pid ∈ (List.insertionSort gRank (g.filter (fun e =>
        decide (cfg.GLOBAL_READY_MIN_ATTEMPTS_PER_PICTURE ≤ e.2.attempts) &&
        decide (0 < e.2.wrong)))).map (fun e => e.1),
        decide (pid ∈ catalog) = true := by
      intro pid hpid
      obtain ⟨e, he, hepid⟩ := List.mem_map.mp hpid
      have hq := (List.perm_insertionSort gRank _).mem_iff.mp he
      exact decide_eq_true (hepid ▸ hcat e hq)
    rw [List.filter_eq_self.mpr hall]
    exact (List.perm_insertionSort gRank _).map (fun e => e.1)

/-- C5 witness: on a ready two-row table whose rows both qualify and fit
under the limit, the produced list is exactly the qualifying ids
reordered by descending wrong ratio. -/
theorem global_top_mistakes_ranked_witness :
    is_global_ready cfgG gTwo = true ∧
    (get_global_top_mistakes cfgG ["a", "b"] gTwo).Perm
      ((gTwo.filter (fun e =>
        decide (cfgG.GLOBAL_READY_MIN_ATTEMPTS_PER_PICTURE ≤ e.2.attempts) &&
        decide (0 < e.2.wrong))).map (fun e => e.1)) := by
  refine ⟨by decide, ?_⟩
  exact (global_top_mistakes_ranked cfgG ["a", "b"] gTwo (by decide)).2.2 (by decide)
    (by decide)

/-! ## Loader lemmas -/

theorem load_paintings_go_spec (data : List RawItem) :
    ∀ (seen : List String) (l : List Painting),
      load_paintings_go data seen = Except.ok l →
      l.map (fun p => p.id) = (data.filter loadKeptB).map (fun it => pyStrip it.id) ∧
      (∀ p ∈ l, p.id ∉ seen ∧ p.id ≠ "") ∧
      (l.map (fun p => p.id)).Nodup := by
  induction data with
  | nil =>
      intro seen l h
      unfold load_paintings_go at h
      have hl : l = [] := by
        injection h with h2
        exact h2.symm
      subst hl
      exact ⟨rfl, by simp, by simp⟩
  | cons it rest ih =>
      intro seen l h
      unfold load_paintings_go at h
      by_cases hkept : pyStrip it.museum ∉ VALID_MUSEUMS ∨ pyStrip it.image_url = ""
      · rw [if_pos hkept] at h
        have hkb : loadKeptB it = false := by
          unfold loadKeptB
          rcases hkept with hm | hu
          · simp [hm]
          · simp [hu]
        obtain ⟨hmap, hseen, hnd⟩ := ih seen l h
        refine ⟨?_, hseen, hnd⟩
        rw [List.filter_cons_of_neg (by simp [hkb])]
        exact hmap
      · rw [if_neg hkept] at h
        push_neg at hkept
        have hkb : loadKeptB it = true := by
          unfold loadKeptB
          simp [hkept.1, hkept.2]
        by_cases hempty : pyStrip it.id = ""
        · rw [if_pos hempty] at h
          exact absurd h (by simp)
        · rw [if_neg hempty] at h
          by_cases hdup : pyStrip it.id ∈ seen
          · rw [if_pos hdup] at h
            exact absurd h (by simp)
          · rw [if_neg hdup] at h
            cases hrec : load_paintings_go rest (pyStrip it.id :: seen) with
            | error e =>
                rw [hrec] at h
                exact absurd h (by simp)
            | ok l2 =>
                rw [hrec] at h
                have hl : l = ⟨pyStrip it.id, pyStrip it.title, pyStrip it.artist,
                    pyStrip it.year, pyStrip it.museum, pyStrip it.image_url,
                    pyStrip it.note⟩ :: l2 := by
                  injection h with h2
                  exact h2.symm
                subst hl
                obtain ⟨ihmap, ihseen, ihnd⟩ := ih (pyStrip it.id :: seen) l2 hrec
                refine ⟨?_, ?_, ?_⟩
                · rw [List.filter_cons_of_pos (by simp [hkb])]
                  simp only [List.map_cons]
                  rw [ihmap]
                · intro p hp
                  rcases List.mem_cons.mp hp with hph | hpt
                  · subst hph
                    exact ⟨hdup, hempty⟩
                  · obtain ⟨hns, hne⟩ := ihseen p hpt
                    exact ⟨fun hmem => hns (List.mem_cons_of_mem _ hmem), hne⟩
                · simp only [List.map_cons]
                  refine List.nodup_cons.mpr ⟨?_, ihnd⟩
                  intro hmem
                  obtain ⟨p, hp, hpid⟩ := List.mem_map.mp hmem
                  exact (ihseen p hp).1 (hpid ▸ List.mem_cons_self _ _)

/-- C9 (corrected, counterexample): a record lacking a stable id does not
always make the load raise: when that record also fails the
museum/image-url validity filter it is silently skipped, and the whole
load succeeds. -/
theorem loader_accepts_filtered_idless_counterexample :
    (∃ it, it ∈ demoData ∧ pyStrip it.id = "") ∧
    load_paintings demoData = Except.ok demoCleaned :=
  ⟨⟨rawNoId, by decide, by decide⟩, by rfl⟩

/-- C9 (amended): among the records that pass the validity filter (valid
museum and non-empty image url), the load raises whenever one lacks a
stable id or two share one; on success every loaded record has a unique,
non-empty id. -/
theorem load_paintings_spec (data : List RawItem) :
    (∀ out, load_paintings data = Except.ok out →
      (out.map (fun p => p.id)).Nodup ∧
      ((data.filter loadKeptB).map (fun it => pyStrip it.id)).Nodup ∧
      (∀ it, it ∈ data → loadKeptB it = true → pyStrip it.id ≠ "")) ∧
    ((∃ it, it ∈ data ∧ loadKeptB it = true ∧ pyStrip it.id = "") →
      ∃ e, load_paintings data = Except.error e) ∧
    (¬ ((data.filter loadKeptB).map (fun it => pyStrip it.id)).Nodup →
      ∃ e, load_paintings data = Except.error e) := by
  have h1 : ∀ out, load_paintings data = Except.ok out →
      (out.map (fun p => p.id)).Nodup ∧
      ((data.filter loadKeptB).map (fun it => pyStrip it.id)).Nodup ∧
      (∀ it, it ∈ data → loadKeptB it = true → pyStrip it.id ≠ "") := by
    intro out hout
    unfold load_paintings at hout
    cases hgo : load_paintings_go data [] with
    | error e =>
        rw [hgo] at hout
        exact absurd hout (by simp)
    | ok cleaned =>
        rw [hgo] at hout
        dsimp only at hout
        by_cases hne : cleaned = []
        · rw [if_pos hne] at hout
          exact absurd hout (by simp)
        · rw [if_neg hne] at hout
          have hoc : cleaned = out := by injection hout
          subst hoc
          obtain ⟨hmap, hseen, hnd⟩ := load_paintings_go_spec data [] cleaned hgo
          refine ⟨hnd, by rw [← hmap]; exact hnd, ?_⟩
          intro it hit hkb hempty
          have hin : pyStrip it.id ∈ (data.filter loadKeptB).map
              (fun it => pyStrip it.id) :=
            List.mem_map.mpr ⟨it, List.mem_filter.mpr ⟨hit, hkb⟩, rfl⟩
          rw [← hmap] at hin
          obtain ⟨p, hp, hpid⟩ := List.mem_map.mp hin
          exact (hseen p hp).2 (hpid.trans hempty)
  refine ⟨h1, ?_, ?_⟩
  · intro hex
    cases hload : load_paintings data with
    | error e => exact ⟨e, rfl⟩
    | ok out =>
        obtain ⟨it, hit, hkb, hempty⟩ := hex
        exact absurd hempty ((h1 out hload).2.2 it hit hkb)
  · intro hnd
    cases hload : load_paintings data with
    | error e => exact ⟨e, rfl⟩
    | ok out => exact absurd ((h1 out hload).2.1) hnd

/-- C9 witness: the demo data loads successfully and the loaded records
have pairwise distinct ids. -/
theorem load_paintings_spec_witness :
    load_paintings demoData = Except.ok demoCleaned ∧
    (demoCleaned.map (fun p => p.id)).Nodup := by
  refine ⟨by rfl, ?_⟩
  exact ((load_paintings_spec demoData).1 demoCleaned (by rfl)).1

/-! ## Counting lemmas for the cycle invariant -/

theorem length_filter_update_true {α : Type} (l : List α) (hnd : l.Nodup) (a : α)
    (ha : a ∈ l) (p q : α → Bool) (hpq : ∀ x, x ≠ a → q x = p x) (hpa : p a = false)
    (hqa : q a = true) : (l.filter q).length = (l.filter p).length + 1 := by
  induction l with
  | nil => exact absurd ha (by simp)
  | cons b t ih =>
      have hndt : t.Nodup := (List.nodup_cons.mp hnd).2
      by_cases hb : b = a
      · subst hb
        have hbt : b ∉ t := (List.nodup_cons.mp hnd).1
        have hqt : t.filter q = t.filter p :=
          List.filter_congr (fun x hx => hpq x (fun he => hbt (he ▸ hx)))
        rw [List.filter_cons_of_pos hqa, List.filter_cons_of_neg (by simp [hpa]), hqt]
        simp
      · have hat : a ∈ t := by
          rcases List.mem_cons.mp ha with h1 | h1
          · exact absurd h1.symm hb
          · exact h1
        have hqb : q b = p b := hpq b hb
        by_cases hpb : p b = true
        · rw [List.filter_cons_of_pos hpb, List.filter_cons_of_pos (hqb.trans hpb)]
          simp only [List.length_cons]
          rw [ih hndt hat]
        · have hpb2 : p b = false := by
            cases hpbv : p b
            · rfl
            · exact absurd hpbv hpb
          rw [List.filter_cons_of_neg (show ¬ q b = true by rw [hqb, hpb2]; simp),
            List.filter_cons_of_neg (show ¬ p b = true by rw [hpb2]; simp)]
          exact ih hndt hat

theorem length_filter_lt {α : Type} (l : List α) (a : α) (ha : a ∈ l) (p : α → Bool)
    (hpa : p a = false) : (l.filter p).length < l.length := by
  induction l with
  | nil => exact absurd ha (by simp)
  | cons b t ih =>
      by_cases hpb : p b = true
      · have hb : b ≠ a := fun he => by rw [he, hpa] at hpb; exact Bool.false_ne_true hpb
        have hat : a ∈ t := by
          rcases List.mem_cons.mp ha with h1 | h1
          · exact absurd h1.symm hb
          · exact h1
        rw [List.filter_cons_of_pos hpb]
        simpa using ih hat
      · rw [List.filter_cons_of_neg hpb]
        exact lt_of_le_of_lt (List.length_filter_le p t) (by simp)

theorem all_of_length_filter_eq {α : Type} (l : List α) (p : α → Bool)
    (h : (l.filter p).length = l.length) : ∀ a ∈ l, p a = true := by
  induction l with
  | nil => intro a ha; exact absurd ha (by simp)
  | cons b t ih =>
      by_cases hpb : p b = true
      · rw [List.filter_cons_of_pos hpb] at h
        simp only [List.length_cons, Nat.succ.injEq] at h
        intro a ha
        rcases List.mem_cons.mp ha with h1 | h1
        · exact h1 ▸ hpb
        · exact ih h a h1
      · rw [List.filter_cons_of_neg hpb] at h
        have := List.length_filter_le p t
        simp only [List.length_cons] at h
        omega

theorem length_filter_sub_eq {α : Type} [DecidableEq α] (cat sub : List α)
    (hnd : cat.Nodup) (hnds : sub.Nodup) (hsub : ∀ x ∈ sub, x ∈ cat) (p : α → Bool)
    (hiff : ∀ x ∈ cat, (p x = true ↔ x ∈ sub)) :
    (cat.filter p).length = sub.length := by
  refine Nat.le_antisymm ?_ ?_
  · refine List.Subperm.length_le ((hnd.filter p).subperm ?_)
    intro x hx
    obtain ⟨hxc, hxp⟩ := List.mem_filter.mp hx
    exact (hiff x hxc).mp hxp
  · refine List.Subperm.length_le (hnds.subperm ?_)
    intro x hx
    exact List.mem_filter.mpr ⟨hsub x hx, (hiff x (hsub x hx)).mpr hx⟩

theorem length_filter_superset_eq {α : Type} (cat cat2 : List α) (hnd : cat.Nodup)
    (hnd2 : cat2.Nodup) (hsub : ∀ x ∈ cat, x ∈ cat2) (p : α → Bool)
    (hp : ∀ x, p x = true → x ∈ cat) :
    (cat2.filter p).length = (cat.filter p).length := by
  refine Nat.le_antisymm ?_ ?_
  · refine List.Subperm.length_le ((hnd2.filter p).subperm ?_)
    intro x hx
    obtain ⟨_, hxp⟩ := List.mem_filter.mp hx
    exact List.mem_filter.mpr ⟨hp x hxp, hxp⟩
  · refine List.Subperm.length_le ((hnd.filter p).subperm ?_)
    intro x hx
    obtain ⟨hxc, hxp⟩ := List.mem_filter.mp hx
    exact List.mem_filter.mpr ⟨hsub x hxc, hxp⟩

/-! ## Seen-mark lemmas for the cycle invariant -/

theorem lscOf_eq_of_ups (st st2 : DB)
    (h : st2.user_picture_state = st.user_picture_state) (u : Nat) (pid : String) :
    lscOf st2 u pid = lscOf st u pid := by
  unfold lscOf upsGet
  rw [h]

theorem lscOf_bump (st : DB) (u : Nat) (pid : String) (cyc : Nat) (now : Int)
    (u2 : Nat) (pid2 : String) :
    lscOf (bump_cycle_seen_if_first_time_this_cycle st u pid cyc now) u2 pid2 =
      if (u2, pid2) = (u, pid) then some cyc else lscOf st u2 pid2 := by
  by_cases hk : ((u2 : Nat), pid2) = ((u : Nat), pid)
  · rw [if_pos hk]
    have h1 : u2 = u := congrArg Prod.fst hk
    have h2 : pid2 = pid := congrArg Prod.snd hk
    subst h1
    subst h2
    exact lscOf_bump_self st u2 pid2 cyc now
  · rw [if_neg hk]
    unfold lscOf upsGet
    rw [bump_ups]
    cases hrow : upsGet st u pid <;> dsimp only
    · rw [alistGet_insert_ne _ _ _ _ hk]
    · rw [alistGet_update_ne _ _ _ _ hk]

theorem answer_ucs (st : DB) (u : Nat) (pid : String) (b : Bool) (now : Int) :
    (update_picture_answer_aggregates st u pid b now).user_cycle_state
      = st.user_cycle_state := by
  unfold update_picture_answer_aggregates
  cases h1 : alistGet st.global_picture_state pid <;> dsimp only <;>
    (cases h2 : alistGet st.user_picture_state (u, pid)) <;> dsimp only <;> rfl

theorem lscOf_answer (st : DB) (u : Nat) (pid : String) (b : Bool) (now : Int)
    (u2 : Nat) (pid2 : String) :
    lscOf (update_picture_answer_aggregates st u pid b now) u2 pid2
      = lscOf st u2 pid2 := by
  unfold update_picture_answer_aggregates
  cases h1 : alistGet st.global_picture_state pid <;> dsimp only <;>
    cases h2 : alistGet st.user_picture_state (u, pid) <;> dsimp only <;>
    unfold lscOf upsGet <;> dsimp only <;>
    by_cases hk : ((u2 : Nat), pid2) = ((u : Nat), pid)
  · have h1p : u2 = u := congrArg Prod.fst hk
    have h2p : pid2 = pid := congrArg Prod.snd hk
    subst h1p; subst h2p
    rw [alistGet_insert_self _ _ _ h2, h2]
  · rw [alistGet_insert_ne _ _ _ _ hk]
  · have h1p : u2 = u := congrArg Prod.fst hk
    have h2p : pid2 = pid := congrArg Prod.snd hk
    subst h1p; subst h2p
    rw [alistGet_update_self _ _ _ _ h2, h2]
  · rw [alistGet_update_ne _ _ _ _ hk]
  · have h1p : u2 = u := congrArg Prod.fst hk
    have h2p : pid2 = pid := congrArg Prod.snd hk
    subst h1p; subst h2p
    rw [alistGet_insert_self _ _ _ h2, h2]
  · rw [alistGet_insert_ne _ _ _ _ hk]
  · have h1p : u2 = u := congrArg Prod.fst hk
    have h2p : pid2 = pid := congrArg Prod.snd hk
    subst h1p; subst h2p
    rw [alistGet_update_self _ _ _ _ h2, h2]
  · rw [alistGet_update_ne _ _ _ _ hk]

theorem seenThisCycle_congr (cat : List String) (st st2 : DB) (u : Nat) (cyc : Nat)
    (h : ∀ pid, lscOf st2 u pid = lscOf st u pid) :
    seenThisCycle cat st2 u cyc = seenThisCycle cat st u cyc := by
  unfold seenThisCycle
  exact List.filter_congr (fun pid _ => by rw [h pid])

theorem CycleInv_congr (cat : List String) (st st2 : DB)
    (hcyc : st2.user_cycle_state = st.user_cycle_state)
    (hups : ∀ u pid, lscOf st2 u pid = lscOf st u pid)
    (h : CycleInv cat st) : CycleInv cat st2 := by
  constructor
  · intro u hu pid
    rw [hups u pid]
    exact h.1 u (hcyc ▸ hu) pid
  · intro u c hc
    obtain ⟨h1, h2, h3, h4, h5, h6⟩ := h.2 u c (hcyc ▸ hc)
    refine ⟨?_, h2, h3, h4, h5, ?_⟩
    · rw [seenThisCycle_congr cat st st2 u c.cycle_id (fun pid => hups u pid)]
      exact h1
    · intro pid k hk
      exact h6 pid k ((hups u pid) ▸ hk)

theorem CycleInv_empty (cat : List String) : CycleInv cat emptyDB := by
  constructor
  · intro u _ pid
    rfl
  · intro u c hc
    exact absurd hc (by simp [emptyDB])

/-- Invariant transfer to a state with one rewritten cycle row: `st1` is
`st` with possibly different picture rows for user `u` only, and the row
written for `u` satisfies the per-user conditions against `st1`'s marks. -/
theorem CycleInv_setCycle_mod (cat : List String) (st st1 : DB) (u : Nat) (row : CycleRow)
    (hinv : CycleInv cat st)
    (hups : ∀ u2 pid, u2 ≠ u → lscOf st1 u2 pid = lscOf st u2 pid)
    (hucs : st1.user_cycle_state = st.user_cycle_state)
    (hrow : row.seen_count = (seenThisCycle cat st1 u row.cycle_id).length ∧
      1 ≤ row.total_pictures_snapshot ∧ row.total_pictures_snapshot ≤ cat.length ∧
      row.seen_count ≤ row.total_pictures_snapshot ∧
      (row.completed_at ≠ none ↔ row.seen_count = row.total_pictures_snapshot) ∧
      (∀ pid k, lscOf st1 u pid = some k →
        k ≤ row.cycle_id ∧ (k = row.cycle_id → pid ∈ cat))) :
    CycleInv cat (setCycle st1 u row) := by
  constructor
  · intro u2 hu2 pid
    unfold setCycle at hu2
    dsimp only at hu2
    by_cases he : u2 = u
    · rw [if_pos he] at hu2
      exact absurd hu2 (by simp)
    · rw [if_neg he] at hu2
      have hl : lscOf (setCycle st1 u row) u2 pid = lscOf st1 u2 pid := rfl
      rw [hl, hups u2 pid he]
      exact hinv.1 u2 (hucs ▸ hu2) pid
  · intro u2 c hc
    unfold setCycle at hc
    dsimp only at hc
    by_cases he : u2 = u
    · rw [if_pos he] at hc
      have hcrow : row = c := by injection hc
      subst hcrow
      subst he
      exact hrow
    · rw [if_neg he] at hc
      obtain ⟨h1, h2, h3, h4, h5, h6⟩ := hinv.2 u2 c (hucs ▸ hc)
      refine ⟨?_, h2, h3, h4, h5, ?_⟩
      · rw [show seenThisCycle cat (setCycle st1 u row) u2 c.cycle_id
            = seenThisCycle cat st1 u2 c.cycle_id from rfl]
        rw [seenThisCycle_congr cat st st1 u2 c.cycle_id (fun pid => hups u2 pid he)]
        exact h1
      · intro pid k hk
        have hl : lscOf (setCycle st1 u row) u2 pid = lscOf st1 u2 pid := rfl
        rw [hl, hups u2 pid he] at hk
        exact h6 pid k hk

/-- The cycle read preserves the invariant, and afterwards the user has
a cycle row whose id is the returned cycle id and whose snapshot is the
live catalog size. -/
theorem get_or_advance_cycle_inv (cfg : Config) (cat : List String) (st : DB) (u : Nat)
    (now : Int) (hne : cat ≠ []) (hnd : cat.Nodup) (hinv : CycleInv cat st) :
    CycleInv cat (get_or_advance_cycle cfg cat st u now).1 ∧
    ∃ c, (get_or_advance_cycle cfg cat st u now).1.user_cycle_state u = some c ∧
      c.cycle_id = (get_or_advance_cycle cfg cat st u now).2.1 ∧
      c.total_pictures_snapshot = cat.length := by
  have hcatpos : 1 ≤ cat.length := List.length_pos.mpr hne
  unfold get_or_advance_cycle
  cases hc : st.user_cycle_state u with
  | none =>
      dsimp only
      constructor
      · refine CycleInv_setCycle_mod cat st st u ⟨1, now, none, cat.length, 0⟩ hinv
          (fun _ _ _ => rfl) rfl ⟨?_, hcatpos, le_refl _, Nat.zero_le _, ?_, ?_⟩
        · have hmarks := hinv.1 u hc
          unfold seenThisCycle
          rw [List.filter_eq_nil.mpr (fun pid _ => by simp [hmarks pid])]
          rfl
        · constructor
          · intro hcon
            exact absurd rfl hcon
          · intro hcon
            dsimp only at hcon
            omega
        · intro pid k hk
          exact absurd hk (by simp [hinv.1 u hc pid])
      · exact ⟨⟨1, now, none, cat.length, 0⟩, by unfold setCycle; dsimp only; rw [if_pos rfl],
          rfl, rfl⟩
  | some r0 =>
      dsimp only
      obtain ⟨h1, h2, h3, h4, h5, h6⟩ := hinv.2 u r0 hc
      by_cases hg : r0.total_pictures_snapshot < cat.length
      · simp only [if_pos hg]
        constructor
        · refine CycleInv_setCycle_mod cat st st u
            { r0 with total_pictures_snapshot := cat.length, completed_at := none } hinv
            (fun _ _ _ => rfl) rfl ⟨h1, hcatpos, le_refl _, ?_, ?_, h6⟩
          · exact le_trans h4 (le_of_lt hg)
          · constructor
            · intro hcon
              exact absurd rfl hcon
            · intro hcon
              dsimp only at hcon
              omega
        · exact ⟨{ r0 with total_pictures_snapshot := cat.length, completed_at := none },
            by unfold setCycle; dsimp only; rw [if_pos rfl], rfl, rfl⟩
      · simp only [if_neg hg]
        have hsnap : r0.total_pictures_snapshot = cat.length :=
          le_antisymm h3 (not_lt.mp hg)
        cases hcompl : r0.completed_at with
        | none =>
            dsimp only
            exact ⟨hinv, r0, hc, rfl, hsnap⟩
        | some t =>
            dsimp only
            by_cases hcd : cfg.CYCLE_COOLDOWN_SECONDS ≤ now - t
            · rw [if_pos hcd]
              constructor
              · refine CycleInv_setCycle_mod cat st st u
                  ⟨r0.cycle_id + 1, now, none, cat.length, 0⟩ hinv
                  (fun _ _ _ => rfl) rfl ⟨?_, hcatpos, le_refl _, Nat.zero_le _, ?_, ?_⟩
                · unfold seenThisCycle
                  rw [List.filter_eq_nil.mpr ?_]
                  · rfl
                  · intro pid _
                    cases hl : lscOf st u pid with
                    | none => simp
                    | some k =>
                        have hk := (h6 pid k hl).1
                        simp only [decide_eq_true_eq]
                        intro hcon
                        injection hcon with hcon2
                        omega
                · constructor
                  · intro hcon
                    exact absurd rfl hcon
                  · intro hcon
                    dsimp only at hcon
                    omega
                · intro pid k hk
                  have hk2 := (h6 pid k hk).1
                  refine ⟨le_trans hk2 (Nat.le_succ _), ?_⟩
                  intro he
                  have he2 : k = r0.cycle_id + 1 := he
                  exact absurd he2 (by omega)
              · exact ⟨⟨r0.cycle_id + 1, now, none, cat.length, 0⟩,
                  by unfold setCycle; dsimp only; rw [if_pos rfl], rfl, rfl⟩
            · rw [if_neg hcd]
              exact ⟨hinv, r0, hc, rfl, hsnap⟩

/-- Core of the first-time seen-marking step: writing the incremented
cycle row (with completion when the snapshot is reached) preserves the
invariant, given that the picture table changed exactly by marking
`pid` with the current cycle. -/
theorem bump_first_core (cat : List String) (st st1 : DB) (u : Nat) (pid : String)
    (now : Int) (c : CycleRow) (hne : cat ≠ []) (hnd : cat.Nodup) (hinv : CycleInv cat st)
    (hc : st.user_cycle_state u = some c)
    (hsnap : c.total_pictures_snapshot = cat.length) (hpid : pid ∈ cat)
    (hfirst : lscOf st u pid ≠ some c.cycle_id)
    (hucs1 : st1.user_cycle_state = st.user_cycle_state)
    (hlsc : ∀ u2 pid2, lscOf st1 u2 pid2 =
      if (u2, pid2) = (u, pid) then some c.cycle_id else lscOf st u2 pid2) :
    CycleInv cat
      (if c.completed_at = none ∧ c.total_pictures_snapshot ≤ c.seen_count + 1
       then setCycle st1 u
        ⟨c.cycle_id, c.started_at, some now, c.total_pictures_snapshot, c.seen_count + 1⟩
       else setCycle st1 u
        ⟨c.cycle_id, c.started_at, c.completed_at, c.total_pictures_snapshot,
          c.seen_count + 1⟩) := by
  have hcatpos : 1 ≤ cat.length := List.length_pos.mpr hne
  obtain ⟨h1, h2, h3, h4, h5, h6⟩ := hinv.2 u c hc
  have hups_ne : ∀ u2 pid2, u2 ≠ u → lscOf st1 u2 pid2 = lscOf st u2 pid2 := by
    intro u2 pid2 hne2
    rw [hlsc u2 pid2, if_neg (fun hk => hne2 (congrArg Prod.fst hk))]
  have hnewcount : (seenThisCycle cat st1 u c.cycle_id).length
      = (seenThisCycle cat st u c.cycle_id).length + 1 := by
    unfold seenThisCycle
    refine length_filter_update_true cat hnd pid hpid
      (fun x => decide (lscOf st u x = some c.cycle_id))
      (fun x => decide (lscOf st1 u x = some c.cycle_id)) ?_ ?_ ?_
    · intro x hx
      dsimp only
      rw [hlsc u x, if_neg (fun hk => hx (congrArg Prod.snd hk))]
    · exact decide_eq_false hfirst
    · dsimp only
      rw [hlsc u pid, if_pos rfl]
      simp
  have hlt : c.seen_count < c.total_pictures_snapshot := by
    rw [h1, hsnap]
    exact length_filter_lt cat pid hpid _ (decide_eq_false hfirst)
  have hcompl : c.completed_at = none := by
    cases hcv : c.completed_at with
    | none => rfl
    | some t =>
        have : c.seen_count = c.total_pictures_snapshot := h5.mp (by rw [hcv]; simp)
        omega
  have hmarks : ∀ pid2 k, lscOf st1 u pid2 = some k →
      k ≤ c.cycle_id ∧ (k = c.cycle_id → pid2 ∈ cat) := by
    intro pid2 k hk
    rw [hlsc u pid2] at hk
    by_cases hkk : ((u : Nat), pid2) = ((u : Nat), pid)
    · rw [if_pos hkk] at hk
      have hkc : k = c.cycle_id := by
        injection hk.symm
      subst hkc
      have hp2 : pid2 = pid := congrArg Prod.snd hkk
      exact ⟨le_refl _, fun _ => hp2 ▸ hpid⟩
    · rw [if_neg hkk] at hk
      exact h6 pid2 k hk
  by_cases hdone : c.total_pictures_snapshot ≤ c.seen_count + 1
  · rw [if_pos ⟨hcompl, hdone⟩]
    refine CycleInv_setCycle_mod cat st st1 u _ hinv hups_ne hucs1
      ⟨?_, ?_, ?_, ?_, ?_, hmarks⟩
    · dsimp only
      rw [hnewcount, h1]
    · dsimp only
      rw [hsnap]
      exact hcatpos
    · dsimp only
      exact le_of_eq hsnap
    · dsimp only
      omega
    · dsimp only
      constructor
      · intro _
        omega
      · intro _
        simp
  · rw [if_neg (fun hco => hdone hco.2)]
    refine CycleInv_setCycle_mod cat st st1 u _ hinv hups_ne hucs1
      ⟨?_, ?_, ?_, ?_, ?_, hmarks⟩
    · dsimp only
      rw [hnewcount, h1]
    · dsimp only
      rw [hsnap]
      exact hcatpos
    · dsimp only
      exact le_of_eq hsnap
    · dsimp only
      omega
    · dsimp only
      rw [hcompl]
      constructor
      · intro hco
        exact absurd rfl hco
      · intro hco
        omega

/-- The seen-marking of the commit path preserves the invariant when the
cycle id passed is the current cycle of the user (as the commit always
does, the candidate's cycle id coming from the peek of the same request)
and the picture is a catalog picture. -/
theorem bump_inv (cat : List String) (st : DB) (u : Nat) (pid : String) (now : Int)
    (c : CycleRow) (hne : cat ≠ []) (hnd : cat.Nodup) (hinv : CycleInv cat st)
    (hc : st.user_cycle_state u = some c)
    (hsnap : c.total_pictures_snapshot = cat.length) (hpid : pid ∈ cat) :
    CycleInv cat (bump_cycle_seen_if_first_time_this_cycle st u pid c.cycle_id now) := by
  by_cases hfirst : lscOf st u pid = some c.cycle_id
  · refine CycleInv_congr cat st _
      (bump_ucs_not_first st u pid c.cycle_id now hfirst) ?_ hinv
    intro u2 pid2
    rw [lscOf_bump]
    by_cases hk : ((u2 : Nat), pid2) = ((u : Nat), pid)
    · rw [if_pos hk]
      have h1p : u2 = u := congrArg Prod.fst hk
      have h2p : pid2 = pid := congrArg Prod.snd hk
      subst h1p
      subst h2p
      exact hfirst.symm
    · rw [if_neg hk]
  · unfold bump_cycle_seen_if_first_time_this_cycle
    cases hrow : upsGet st u pid with
    | none =>
        have hfr : (none : Option Nat) ≠ some c.cycle_id := by
          simp only [lscOf, hrow] at hfirst
          exact hfirst
        dsimp only
        rw [if_pos (decide_eq_true hfr)]
        rw [hc]
        dsimp only
        have hlsc : ∀ u2 pid2,
            lscOf { st with user_picture_state := alistInsert st.user_picture_state (u, pid) ⟨some c.cycle_id, some now, none, 0, 0, 0⟩ } u2 pid2 =
            if (u2, pid2) = (u, pid) then some c.cycle_id else lscOf st u2 pid2 := by
          intro u2 pid2
          by_cases hk : ((u2 : Nat), pid2) = ((u : Nat), pid)
          · rw [if_pos hk]
            have h1p : u2 = u := congrArg Prod.fst hk
            have h2p : pid2 = pid := congrArg Prod.snd hk
            subst h1p
            subst h2p
            unfold lscOf upsGet
            dsimp only
            rw [alistGet_insert_self _ _ _ hrow]
          · rw [if_neg hk]
            unfold lscOf upsGet
            dsimp only
            rw [alistGet_insert_ne _ _ _ _ hk]
        exact bump_first_core cat st _ u pid now c hne hnd hinv hc hsnap hpid hfirst
          rfl hlsc
    | some r =>
        have hfr : r.last_seen_cycle_id ≠ some c.cycle_id := by
          simp only [lscOf, hrow] at hfirst
          exact hfirst
        dsimp only
        rw [if_pos (decide_eq_true hfr)]
        rw [hc]
        dsimp only
        have hlsc : ∀ u2 pid2,
            lscOf { st with user_picture_state := alistUpdate st.user_picture_state (u, pid) (fun r2 => { r2 with last_seen_cycle_id := some c.cycle_id, last_seen_at := some now }) } u2 pid2 =
            if (u2, pid2) = (u, pid) then some c.cycle_id else lscOf st u2 pid2 := by
          intro u2 pid2
          by_cases hk : ((u2 : Nat), pid2) = ((u : Nat), pid)
          · rw [if_pos hk]
            have h1p : u2 = u := congrArg Prod.fst hk
            have h2p : pid2 = pid := congrArg Prod.snd hk
            subst h1p
            subst h2p
            unfold lscOf upsGet
            dsimp only
            rw [alistGet_update_self _ _ _ _ hrow]
          · rw [if_neg hk]
            unfold lscOf upsGet
            dsimp only
            rw [alistGet_update_ne _ _ _ _ hk]
        exact bump_first_core cat st _ u pid now c hne hnd hinv hc hsnap hpid hfirst
          rfl hlsc

/-! ## Backfill lemmas -/

theorem alistGet_append {κ β : Type} [DecidableEq κ] (l1 l2 : List (κ × β)) (k : κ) :
    alistGet (l1 ++ l2) k =
      (match alistGet l1 k with
        | some v => some v
        | none => alistGet l2 k) := by
  induction l1 with
  | nil => rfl
  | cons e t ih =>
      rw [List.cons_append, alistGet_cons, alistGet_cons]
      by_cases hk : e.1 = k
      · rw [if_pos hk, if_pos hk]
      · rw [if_neg hk, if_neg hk, ih]

theorem alistGet_block {β : Type} (u : Nat) (pids : List String) (row : String → β)
    (u2 : Nat) (pid2 : String) :
    alistGet (pids.map (fun pid => ((u, pid), row pid))) (u2, pid2)
      = if u2 = u ∧ pid2 ∈ pids then some (row pid2) else none := by
  induction pids with
  | nil => simp [alistGet_nil]
  | cons p t ih =>
      rw [List.map_cons, alistGet_cons]
      by_cases hk : ((u : Nat), p) = ((u2 : Nat), pid2)
      · have h1 : u2 = u := (congrArg Prod.fst hk).symm
        have h2 : pid2 = p := (congrArg Prod.snd hk).symm
        rw [if_pos hk, if_pos ⟨h1, by rw [h2]; exact List.mem_cons_self _ _⟩]
        dsimp only
        rw [h2]
      · rw [if_neg hk, ih]
        by_cases hu : u2 = u
        · by_cases hp : pid2 ∈ t
          · rw [if_pos ⟨hu, hp⟩, if_pos ⟨hu, List.mem_cons_of_mem _ hp⟩]
          · have hp2 : pid2 ≠ p := by
              intro he
              exact hk (by rw [hu, he])
            rw [if_neg (fun hco => hp hco.2),
              if_neg (fun hco => hp2 (by
                rcases List.mem_cons.mp hco.2 with h3 | h3
                · exact h3
                · exact absurd h3 hp))]
        · rw [if_neg (fun hco => hu hco.1), if_neg (fun hco => hu hco.1)]

theorem alistGet_flatMap_blocks {β : Type} (users : List Nat) (pids : Nat → List String)
    (row : Nat → String → β) (u2 : Nat) (pid2 : String) :
    alistGet (users.flatMap (fun u => (pids u).map (fun pid => ((u, pid), row u pid))))
        (u2, pid2)
      = if u2 ∈ users ∧ pid2 ∈ pids u2 then some (row u2 pid2) else none := by
  induction users with
  | nil => simp [alistGet_nil]
  | cons u rest ih =>
      rw [List.flatMap_cons, alistGet_append, alistGet_block, ih]
      by_cases hu : u2 = u
      · subst hu
        by_cases hp : pid2 ∈ pids u2
        · rw [if_pos ⟨rfl, hp⟩]
          dsimp only
          rw [if_pos ⟨List.mem_cons_self _ _, hp⟩]
        · rw [if_neg (fun hco => hp hco.2)]
          dsimp only
          rw [if_neg (fun hco => hp hco.2), if_neg (fun hco => hp hco.2)]
      · rw [if_neg (fun hco => hu hco.1)]
        dsimp only
        by_cases hrest : u2 ∈ rest ∧ pid2 ∈ pids u2
        · rw [if_pos hrest, if_pos ⟨List.mem_cons_of_mem _ hrest.1, hrest.2⟩]
        · rw [if_neg hrest, if_neg (fun hco => hrest ⟨by
            rcases List.mem_cons.mp hco.1 with h3 | h3
            · exact absurd h3 hu
            · exact h3, hco.2⟩)]

theorem resolve_mem (ps : List Painting) (pidq : Option String)
    (t a y m iu : String) (pid2 : String)
    (h : resolve_picture_id ps pidq t a y m iu = some pid2) :
    pid2 ∈ paintingIds ps := by
  unfold resolve_picture_id at h
  by_cases h1 : pidTruthy pidq = true ∧ pidq.getD "" ∈ paintingIds ps
  · rw [if_pos h1] at h
    cases pidq with
    | none => exact absurd h (by simp)
    | some p =>
        have hp : p = pid2 := by injection h
        subst hp
        simpa using h1.2
  · rw [if_neg h1] at h
    cases h5 : catalog_by_key5 ps (key5_from_fields t a y m iu) with
    | some p =>
        rw [h5] at h
        have hp : p = pid2 := by injection h
        subst hp
        unfold catalog_by_key5 at h5
        obtain ⟨q, hq, hqid⟩ := Option.map_eq_some'.mp h5
        have hqm : q ∈ ps.reverse := List.mem_of_find?_eq_some hq
        exact hqid ▸ List.mem_map.mpr ⟨q, List.mem_reverse.mp hqm, rfl⟩
    | none =>
        rw [h5] at h
        dsimp only at h
        by_cases hlen : (catalog_by_key4 ps (key4_from_fields t a y m)).length = 1
        · rw [if_pos hlen] at h
          obtain ⟨x, hx⟩ := List.length_eq_one.mp hlen
          have hp : (catalog_by_key4 ps (key4_from_fields t a y m)).getD 0 "" = pid2 := by
            injection h
          rw [hx] at hp
          have hxm : x ∈ catalog_by_key4 ps (key4_from_fields t a y m) := by
            rw [hx]
            exact List.mem_cons_self _ _
          unfold catalog_by_key4 at hxm
          obtain ⟨q, hq, hqid⟩ := List.mem_map.mp hxm
          have : x = pid2 := hp
          subst this
          exact hqid ▸ List.mem_map.mpr ⟨q, (List.mem_filter.mp hq).1, rfl⟩
        · rw [if_neg hlen] at h
          exact absurd h (by simp)

theorem backfillResolved_mem (ps : List Painting) (log : List LogEntry)
    (r : Nat × String × Bool × Int) (hr : r ∈ backfillResolved ps log) :
    r.2.1 ∈ paintingIds ps := by
  unfold backfillResolved at hr
  obtain ⟨e, _, hres⟩ := List.mem_filterMap.mp hr
  obtain ⟨p2, hp2, hpr⟩ := Option.map_eq_some'.mp hres
  have : r.2.1 = p2 := by rw [← hpr]
  exact this ▸ resolve_mem ps e.picture_id e.title e.artist e.year e.museum e.image_url
    p2 hp2

theorem bfPids_subset (ps : List Painting) (log : List LogEntry) (u : Nat) :
    ∀ pid ∈ bfPids (backfillResolved ps log) u, pid ∈ paintingIds ps := by
  intro pid hpid
  unfold bfPids at hpid
  obtain ⟨r, hr, hrpid⟩ := List.mem_map.mp (List.mem_dedup.mp hpid)
  exact hrpid ▸ backfillResolved_mem ps log r (List.mem_filter.mp hr).1

/-- The one-time backfill, run on the fresh aggregate tables, produces a
state satisfying the cycle invariant. -/
theorem backfill_inv (ps : List Painting) (log : List LogEntry) (now : Int)
    (hne : ps ≠ []) (hnd : (paintingIds ps).Nodup) :
    CycleInv (paintingIds ps) (backfill_picture_states ps log now) := by
  have hidne : paintingIds ps ≠ [] := by
    unfold paintingIds
    simp [hne]
  have hcatpos : 1 ≤ (paintingIds ps).length := List.length_pos.mpr hidne
  unfold backfill_picture_states
  by_cases hlog : log = []
  · rw [if_pos hlog]
    exact CycleInv_empty _
  · rw [if_neg hlog]
    dsimp only
    constructor
    · intro u2 hu2 pid2
      dsimp only at hu2
      by_cases hu : u2 ∈ bfUsers (backfillResolved ps log)
      · rw [if_pos hu] at hu2
        exact absurd hu2 (by simp)
      · unfold lscOf upsGet
        dsimp only
        rw [alistGet_flatMap_blocks]
        rw [if_neg (fun hco => hu hco.1)]
    · intro u2 c hc
      dsimp only at hc
      by_cases hu : u2 ∈ bfUsers (backfillResolved ps log)
      case neg =>
        rw [if_neg hu] at hc
        exact absurd hc (by simp)
      case pos =>
        rw [if_pos hu] at hc
        have hcv : c = ⟨1, now,
            if (paintingIds ps).length ≤ (bfPids (backfillResolved ps log) u2).length
            then some now else none,
            (paintingIds ps).length, (bfPids (backfillResolved ps log) u2).length⟩ := by
          injection hc with h2
          exact h2.symm
        subst hcv
        have hlenle : (bfPids (backfillResolved ps log) u2).length
            ≤ (paintingIds ps).length :=
          List.Subperm.length_le ((List.nodup_dedup _).subperm
            (fun x hx => bfPids_subset ps log u2 x hx))
        refine ⟨?_, hcatpos, le_refl _, hlenle, ?_, ?_⟩
        · dsimp only
          unfold seenThisCycle
          refine (length_filter_sub_eq (paintingIds ps)
            (bfPids (backfillResolved ps log) u2) hnd (List.nodup_dedup _)
            (bfPids_subset ps log u2) _ ?_).symm
          intro x _
          unfold lscOf upsGet
          dsimp only
          rw [alistGet_flatMap_blocks]
          by_cases hx : x ∈ bfPids (backfillResolved ps log) u2
          · rw [if_pos ⟨hu, hx⟩]
            simp only [bfPicRow]
            simp [hx]
          · rw [if_neg (fun hco => hx hco.2)]
            simp [hx]
        · dsimp only
          by_cases hN : (paintingIds ps).length
              ≤ (bfPids (backfillResolved ps log) u2).length
          · rw [if_pos hN]
            constructor
            · intro _
              exact le_antisymm hlenle hN
            · intro _
              simp
          · rw [if_neg hN]
            constructor
            · intro hco
              exact absurd rfl hco
            · intro hco
              exact absurd (le_of_eq hco.symm) hN
        · intro pid3 k hk
          unfold lscOf upsGet at hk
          dsimp only at hk
          rw [alistGet_flatMap_blocks] at hk
          by_cases hx : u2 ∈ bfUsers (backfillResolved ps log) ∧
              pid3 ∈ bfPids (backfillResolved ps log) u2
          · rw [if_pos hx] at hk
            simp only [bfPicRow] at hk
            have hk1 : k = 1 := by
              injection hk.symm
            subst hk1
            exact ⟨le_refl _, fun _ => bfPids_subset ps log u2 pid3 hx.2⟩
          · rw [if_neg hx] at hk
            exact absurd hk (by simp)

/-- The invariant survives catalog growth across restarts (the catalog
only ever gains pictures). -/
theorem CycleInv_grow (cat cat2 : List String) (st : DB) (hnd : cat.Nodup)
    (hnd2 : cat2.Nodup) (hsub : cat ⊆ cat2) (hinv : CycleInv cat st) :
    CycleInv cat2 st := by
  constructor
  · exact hinv.1
  · intro u c hc
    obtain ⟨h1, h2, h3, h4, h5, h6⟩ := hinv.2 u c hc
    have hlen : cat.length ≤ cat2.length := List.Subperm.length_le (hnd.subperm hsub)
    refine ⟨?_, h2, le_trans h3 hlen, h4, h5, ?_⟩
    · unfold seenThisCycle at h1 ⊢
      rw [length_filter_superset_eq cat cat2 hnd hnd2 hsub _ ?_]
      · exact h1
      · intro x hx
        exact (h6 x c.cycle_id (of_decide_eq_true hx)).2 rfl
    · intro pid k hk
      have hm := h6 pid k hk
      exact ⟨hm.1, fun he => hsub (hm.2 he)⟩

/-- Master induction: every reachable state of the scheduling engine has
a non-empty duplicate-free catalog and satisfies the cycle invariant. -/
theorem reachable_inv (cfg : Config) (cat : List String) (st : DB)
    (h : Reachable cfg cat st) : cat ≠ [] ∧ cat.Nodup ∧ CycleInv cat st := by
  induction h with
  | init catalog hne hnd => exact ⟨hne, hnd, CycleInv_empty catalog⟩
  | backfill_init ps log now hne hnd =>
      refine ⟨?_, hnd, backfill_inv ps log now hne hnd⟩
      unfold paintingIds
      simp [hne]
  | advance catalog st u now h ih =>
      obtain ⟨hne, hnd, hinv⟩ := ih
      exact ⟨hne, hnd, (get_or_advance_cycle_inv cfg catalog st u now hne hnd hinv).1⟩
  | serve catalog st u pid now1 now2 h hpid ih =>
      obtain ⟨hne, hnd, hinv⟩ := ih
      obtain ⟨hinv1, c, hc, hcyc, hsnap⟩ :=
        get_or_advance_cycle_inv cfg catalog st u now1 hne hnd hinv
      refine ⟨hne, hnd, ?_⟩
      rw [← hcyc]
      exact bump_inv catalog _ u pid now2 c hne hnd hinv1 hc hsnap hpid
  | answer catalog st u pid b now h ih =>
      obtain ⟨hne, hnd, hinv⟩ := ih
      exact ⟨hne, hnd, CycleInv_congr catalog st _ (answer_ucs st u pid b now)
        (fun u2 pid2 => lscOf_answer st u pid b now u2 pid2) hinv⟩
  | frame catalog st st2 h hcyc hups ih =>
      obtain ⟨hne, hnd, hinv⟩ := ih
      exact ⟨hne, hnd, CycleInv_congr catalog st st2 hcyc
        (fun u pid => lscOf_eq_of_ups st st2 hups u pid) hinv⟩
  | grow catalog catalog2 st h hsub hnd2 ih =>
      obtain ⟨hne, hnd, hinv⟩ := ih
      refine ⟨?_, hnd2, CycleInv_grow catalog catalog2 st hnd hnd2 hsub hinv⟩
      intro hc2
      rcases List.exists_mem_of_ne_nil catalog hne with ⟨x, hx⟩
      have hx2 := hsub hx
      rw [hc2] at hx2
      exact absurd hx2 (by simp)

/-- C6: in every state reachable by the scheduling engine (from a fresh
or backfilled database, by cycle reads, committed deliveries, answer
recording, cursor/quota/plan/pending writes, and catalog growth), every
user cycle row satisfies seen_count ≤ total_pictures_snapshot, and
completed_at is set exactly when seen_count equals the snapshot; being
stated for the reachability closure, every one of these operations
preserves the property. -/
theorem reachable_cycle_invariant (cfg : Config) (cat : List String) (st : DB)
    (h : Reachable cfg cat st) :
    ∀ u c, st.user_cycle_state u = some c →
      c.seen_count ≤ c.total_pictures_snapshot ∧
      (c.completed_at ≠ none ↔ c.seen_count = c.total_pictures_snapshot) := by
  intro u c hc
  obtain ⟨_, _, hinv⟩ := reachable_inv cfg cat st h
  obtain ⟨_, _, _, h4, h5, _⟩ := hinv.2 u c hc
  exact ⟨h4, h5⟩

/-- C6 witness: after a cycle read on the fresh database over the
one-picture catalog, user 0 has the cycle row (1, 0, none, 1, 0), and
the invariant instantiates to 0 ≤ 1 with completion unset. -/
theorem reachable_cycle_invariant_witness :
    Reachable cfg0 ["a"] stAdv ∧
    stAdv.user_cycle_state 0 = some ⟨1, 0, none, 1, 0⟩ ∧
    ((0 : Nat) ≤ 1 ∧ (((none : Option Int) ≠ none) ↔ (0 : Nat) = 1)) := by
  have hr : Reachable cfg0 ["a"] stAdv :=
    Reachable.advance ["a"] emptyDB 0 0 (Reachable.init ["a"] (by decide) (by decide))
  have hc : stAdv.user_cycle_state 0 = some ⟨1, 0, none, 1, 0⟩ := by decide
  exact ⟨hr, hc, reachable_cycle_invariant cfg0 ["a"] stAdv hr 0 ⟨1, 0, none, 1, 0⟩ hc⟩

end TretyakovBot
